import Mathlib

/-! sutil: message-queue configuration keys, key namespacing, back-off and read-through cache.

A shallow embedding of the parts of `mq/config.go` and `cache/redisext/redisext.go`
that the specification speaks about, of the back-off controller of `stime` and of the
`cache/value` cache, followed by the theorems about them.

Go strings are embedded as Lean `String`s.  The separators the code splits on
(`"."` and `","`) are single ASCII bytes, so splitting a string on that byte and
splitting its characters on that character agree.  Logging calls (`slog.*`) and
tracing spans have no effect on results and are left out.
-/

namespace Sutil

deriving instance DecidableEq for Except

/-! ## The fragment of Go's `strings` and `fmt` packages used by the code -/

namespace strings

/-- Go `strings.Split(s, sep)` for a one-character separator: the pieces of `s`
between consecutive occurrences of `sep`; always at least one piece. -/
def Split (s : String) (sep : Char) : List String :=
  (s.data.splitOn sep).map String.mk

/-- Go `strings.Join(elems, sep)` for a one-character separator. -/
def Join (elems : List String) (sep : Char) : String :=
  String.mk ([sep].intercalate (elems.map String.data))

/-- Go `strings.Contains(s, substr)`: `substr` occurs somewhere inside `s`. -/
def Contains (s substr : String) : Bool :=
  s.data.tails.any (fun t => substr.data.isPrefixOf t)

/-- Go `unicode.IsSpace(r)`: the code points with Unicode property White_Space. -/
def IsSpace (r : Char) : Bool :=
  let n := r.toNat
  (9 ≤ n && n ≤ 13) || n = 32 || n = 0x85 || n = 0xA0 || n = 0x1680 ||
  (0x2000 ≤ n && n ≤ 0x200A) || n = 0x2028 || n = 0x2029 || n = 0x202F ||
  n = 0x205F || n = 0x3000

/-- Go `strings.TrimSpace(s)`: `s` without its leading and trailing white space. -/
def TrimSpace (s : String) : String :=
  String.mk ((s.data.dropWhile IsSpace).reverse.dropWhile IsSpace).reverse

end strings

/-! ## `mq/config.go` -/

/-- Go `type MQType int`. -/
structure MQType where
  val : Int
  deriving DecidableEq, Repr

/-- Go `MQTypeKafka MQType = iota`. -/
def MQTypeKafka : MQType := ⟨0⟩

/-- Go `func (t MQType) String() string`. -/
def MQType.String (t : MQType) : String :=
  if t = MQTypeKafka then "kafka" else ""

/-- Go `apolloConfigSep = "."`. -/
def apolloConfigSep : Char := '.'

/-- Go `apolloBrokersSep = ","`. -/
def apolloBrokersSep : Char := ','

/-- Go `apolloBrokersKey = "brokers"`. -/
def apolloBrokersKey : String := "brokers"

/-- Go `apolloOffsetAtKey = "offsetat"`. -/
def apolloOffsetAtKey : String := "offsetat"

/-- Go `type KeyParts struct { Topic string; Group string }`. -/
structure KeyParts where
  Topic : String
  Group : String
  deriving DecidableEq, Repr

/-- Go `type Config struct`; durations are in nanoseconds. -/
structure Config where
  MQType : MQType
  MQAddr : List String
  Topic : String
  TimeOut : Int
  CommitInterval : Int
  Offset : Int
  OffsetAt : String
  deriving DecidableEq, Repr

/-- Go `defaultTimeout = 3 * time.Second`. -/
def defaultTimeout : Int := 3 * 1000000000

/-- Constants the package uses whose declarations live in files outside this
development: `defaultRouteGroup` and `FirstOffset` of package `mq`, and
`center.DefaultApolloMQNamespace`. -/
structure Consts where
  defaultRouteGroup : String
  FirstOffset : Int
  DefaultApolloMQNamespace : String

/-- What the code reads from a `context.Context`: the value stored under
`scontext.ContextKeyControl`, if any, represented by what its
`GetControlRouteGroup()` method returns. -/
structure Ctx where
  control : Option (String × Bool)
  deriving DecidableEq, Repr

/-- Go `type simpleContextControlRouter struct { group string }`. -/
structure simpleContextControlRouter where
  group : String

/-- Go `func (s simpleContextControlRouter) GetControlRouteGroup() (string, bool)`. -/
def simpleContextControlRouter.GetControlRouteGroup (s : simpleContextControlRouter) :
    String × Bool :=
  (s.group, true)

/-- Go `context.WithValue(ctx, scontext.ContextKeyControl, router)` for a
`simpleContextControlRouter`. -/
def Ctx.WithControl (_ctx : Ctx) (router : simpleContextControlRouter) : Ctx :=
  { control := some router.GetControlRouteGroup }

/-- Modelled from the spec: `scontext.GetControlRouteGroupWithDefault`, whose source
is not part of this development.  Routing-group resolution "yields the logical
routing group to use, falling back to a default group when context carries none". -/
def GetControlRouteGroupWithDefault (ctx : Ctx) (dv : String) : String :=
  match ctx.control with
  | some (group, true) => group
  | _ => dv

/-- Go interface `center.ConfigCenter`, restricted to the method the code calls:
`GetStringWithNamespace(ctx, namespace, key) (string, bool)`. -/
structure ConfigCenter where
  GetStringWithNamespace : Ctx → String → String → String × Bool

/-- One call of `GetStringWithNamespace`, as recorded in the order of execution:
the namespace and the key that were asked for. -/
structure Lookup where
  ns : String
  key : String
  deriving DecidableEq, Repr

namespace ApolloConfig

/-- Go `func (m *ApolloConfig) buildKey(ctx, topic, item string) string`. -/
def buildKey (K : Consts) (ctx : Ctx) (topic item : String) : String :=
  strings.Join
    [topic, GetControlRouteGroupWithDefault ctx K.defaultRouteGroup, MQTypeKafka.String, item]
    apolloConfigSep

/-- Go `func (m *ApolloConfig) getConfigItemWithFallback(ctx, topic, name) (string, bool)`,
returning in addition the calls made on the config centre, in order. -/
def getConfigItemWithFallback (K : Consts) (m : ConfigCenter) (ctx : Ctx)
    (topic name : String) : (String × Bool) × List Lookup :=
  let key := buildKey K ctx topic name
  let r := m.GetStringWithNamespace ctx K.DefaultApolloMQNamespace key
  if !r.2 then
    let defaultCtx := ctx.WithControl ⟨K.defaultRouteGroup⟩
    let defaultKey := buildKey K defaultCtx topic name
    (m.GetStringWithNamespace defaultCtx K.DefaultApolloMQNamespace defaultKey,
      [⟨K.DefaultApolloMQNamespace, key⟩, ⟨K.DefaultApolloMQNamespace, defaultKey⟩])
  else
    (r, [⟨K.DefaultApolloMQNamespace, key⟩])

/-- The loop of `GetConfig` over `strings.Split(brokersVal, apolloBrokersSep)`:
every non-empty piece is appended after `strings.TrimSpace`. -/
def parseBrokers (brokersVal : String) : List String :=
  (strings.Split brokersVal apolloBrokersSep).foldl
    (fun brokers broker => if broker ≠ "" then brokers ++ [strings.TrimSpace broker] else brokers)
    []

/-- Go `func (m *ApolloConfig) GetConfig(ctx, topic) (*Config, error)`, returning in
addition the calls made on the config centre, in order. -/
def GetConfig (K : Consts) (m : ConfigCenter) (ctx : Ctx) (topic : String) :
    Except String Config × List Lookup :=
  let b := getConfigItemWithFallback K m ctx topic apolloBrokersKey
  if !b.1.2 then
    (.error "ApolloConfig.GetConfig--> no brokers config found", b.2)
  else
    let brokers := parseBrokers b.1.1
    let o := getConfigItemWithFallback K m ctx topic apolloOffsetAtKey
    (.ok { MQType := MQTypeKafka
           MQAddr := brokers
           Topic := topic
           TimeOut := defaultTimeout
           CommitInterval := 1 * 1000000000
           Offset := K.FirstOffset
           OffsetAt := o.1.1 },
      b.2 ++ o.2)

/-- Go `func (m *ApolloConfig) ParseKey(ctx, key) (*KeyParts, error)`.
The error carries the message built by `fmt.Sprintf("%s invalid key:%s", fun, key)`. -/
def ParseKey (key : String) : Except String KeyParts :=
  let parts := strings.Split key apolloConfigSep
  let numParts := parts.length
  if numParts < 4 then
    .error ("ApolloConfig.ParseKey--> invalid key:" ++ key)
  else
    .ok { Topic := strings.Join (parts.take (numParts - 3)) apolloConfigSep
          Group := parts.getD (numParts - 3) "" }

/-- How a call of a Go function ends: it returns a value, or it panics. -/
inductive Outcome (α : Type) where
  | returned (a : α)
  | panicked
  deriving DecidableEq, Repr

/-- Go `func (m *ApolloConfig) Init(ctx) (err error)`.

* `created` is what `center.NewConfigCenter(center.ApolloConfigCenter)` returned: the
  centre (`none` for a nil interface value) and the error (`none` for nil);
* `centerInit c` is what `c.Init(ctx, ...)` returns for a non-nil centre `c`.

The result is the returned error together with the value stored in `m.center`.
Calling `Init` on a nil interface value is a run-time panic. -/
def Init {Center : Type} (created : Option Center × Option String)
    (centerInit : Center → Option String) : Outcome (Option String × Option Center) :=
  -- `apolloCenter, err := center.NewConfigCenter(...)`; a non-nil `err` is only logged
  match created.1 with
  | none => .panicked
  | some apolloCenter =>
    -- `err = apolloCenter.Init(...)`; a non-nil `err` is only logged
    let err := centerInit apolloCenter
    -- `m.center = apolloCenter; return`
    .returned (err, some apolloCenter)

end ApolloConfig

/-- Go `type center.ChangeEvent struct`, restricted to the fields the observer reads
or writes.  The Go map `Changes` is an association list; `Change` stands for
`*center.Change`, which the observer only passes along. -/
structure ChangeEvent (Change : Type) where
  Namespace : String
  Changes : List (String × Change)
  deriving DecidableEq, Repr

/-- Go `type apolloObserver struct { ch chan<- *center.ChangeEvent }`: the channel is
represented by the events sent on it so far, oldest first. -/
structure apolloObserver (Change : Type) where
  ch : List (ChangeEvent Change)
  deriving DecidableEq, Repr

/-- Go `func (ob *apolloObserver) HandleChangeEvent(event *center.ChangeEvent)`. -/
def apolloObserver.HandleChangeEvent {Change : Type} (K : Consts) (ob : apolloObserver Change)
    (event : ChangeEvent Change) : apolloObserver Change :=
  if event.Namespace ≠ K.DefaultApolloMQNamespace then
    ob
  else
    let changes := event.Changes.filter (fun kc => strings.Contains kc.1 MQTypeKafka.String)
    { ch := ob.ch ++ [{ event with Changes := changes }] }

/-- Values for the constants declared outside this development, for the examples:
the default routing group, `FirstOffset` and the MQ namespace. -/
def exampleConsts : Consts :=
  { defaultRouteGroup := "default", FirstOffset := -2, DefaultApolloMQNamespace := "infra.mq" }

/-- A change event of the MQ namespace with one kafka entry and one other entry; the
changes themselves are numbered. -/
def exampleEvent : ChangeEvent Nat :=
  { Namespace := "infra.mq"
    Changes := [("topic.default.kafka.brokers", 1), ("topic.default.redis.addr", 2)] }

/-! ## `cache/redisext/redisext.go` -/

/-- Go `type RedisExt struct { namespace string; prefix string }`. -/
structure RedisExt where
  ns : String
  pfx : String
  deriving DecidableEq, Repr

/-- Go `func (m *RedisExt) prefixKey(key string) string`, where
`fmt.Sprintf("%s.%s", m.prefix, key)` is the concatenation of the two around a dot. -/
def RedisExt.prefixKey (m : RedisExt) (key : String) : String :=
  if m.pfx.length > 0 then m.pfx ++ "." ++ key else key

/-- Go `error` values of the cache packages, by their message. -/
abbrev Err := String

/-- Go `interface{}` arguments and results of the operations: a string, or a dynamic
value of any other type (`α` stands for those). -/
inductive Any (α : Type) where
  | str (s : String)
  | other (a : α)
  deriving DecidableEq, Repr

/-- Go `float64`, by its bit pattern; the operations only pass such values along. -/
structure Float64 where
  bits : Nat
  deriving DecidableEq, Repr

/-- Go `type Z struct { Score float64; Member interface{} }`. -/
structure Z (α : Type) where
  Score : Float64
  Member : Any α
  deriving DecidableEq, Repr

/-- Go `redis2.Z` of `github.com/go-redis/redis`, with the same two fields. -/
structure RedisZ (α : Type) where
  Score : Float64
  Member : Any α
  deriving DecidableEq, Repr

/-- Go `func (z Z) toRedisZ() redis2.Z`. -/
def Z.toRedisZ {α : Type} (z : Z α) : RedisZ α :=
  { Score := z.Score, Member := z.Member }

/-- Go `func fromRedisZ(rz redis2.Z) Z`. -/
def fromRedisZ {α : Type} (rz : RedisZ α) : Z α :=
  { Score := rz.Score, Member := rz.Member }

/-- Go `func toRedisZSlice(zs []Z) (rzs []redis2.Z)`. -/
def toRedisZSlice {α : Type} (zs : List (Z α)) : List (RedisZ α) :=
  zs.foldl (fun rzs z => rzs ++ [z.toRedisZ]) []

/-- Go `func fromRedisZSlice(rzs []redis2.Z) (zs []Z)`. -/
def fromRedisZSlice {α : Type} (rzs : List (RedisZ α)) : List (Z α) :=
  rzs.foldl (fun zs rz => zs ++ [fromRedisZ rz]) []

/-- Go `type ZRangeBy struct { Min, Max string; Offset, Count int64 }`. -/
structure ZRangeBy where
  Min : String
  Max : String
  Offset : Int
  Count : Int
  deriving DecidableEq, Repr

/-- Go `redis2.ZRangeBy`, with the same four fields. -/
structure RedisZRangeBy where
  Min : String
  Max : String
  Offset : Int
  Count : Int
  deriving DecidableEq, Repr

/-- Go `func toRedisZRangeBy(by ZRangeBy) redis2.ZRangeBy`. -/
def toRedisZRangeBy (rb : ZRangeBy) : RedisZRangeBy :=
  { Min := rb.Min, Max := rb.Max, Offset := rb.Offset, Count := rb.Count }

/-- A command issued on the backend client: the method of `redis.Client` that is
called, with its arguments (the context apart).  Durations are in nanoseconds. -/
inductive Cmd (α : Type) where
  | Get (key : String)
  | MGet (keys : List String)
  | Set (key : String) (val : Any α) (exp : Int)
  | MSet (pairs : List (Any α))
  | GetBit (key : String) (offset : Int)
  | SetBit (key : String) (offset : Int) (value : Int)
  | Incr (key : String)
  | IncrBy (key : String) (val : Int)
  | Decr (key : String)
  | DecrBy (key : String) (val : Int)
  | SetNX (key : String) (val : Any α) (exp : Int)
  | Exists (key : String)
  | Del (key : String)
  | Expire (key : String) (expiration : Int)
  | HSet (key field : String) (value : Any α)
  | HDel (key : String) (fields : List String)
  | HExists (key field : String)
  | HGet (key field : String)
  | HGetAll (key : String)
  | HIncrBy (key field : String) (incr : Int)
  | HIncrByFloat (key field : String) (incr : Float64)
  | HKeys (key : String)
  | HLen (key : String)
  | HMGet (key : String) (fields : List String)
  | HMSet (key : String) (fields : List (String × Any α))
  | HSetNX (key field : String) (val : Any α)
  | HVals (key : String)
  | ZAdd (key : String) (members : List (RedisZ α))
  | ZAddNX (key : String) (members : List (RedisZ α))
  | ZAddNXCh (key : String) (members : List (RedisZ α))
  | ZAddXX (key : String) (members : List (RedisZ α))
  | ZAddXXCh (key : String) (members : List (RedisZ α))
  | ZAddCh (key : String) (members : List (RedisZ α))
  | ZCard (key : String)
  | ZCount (key min max : String)
  | ZRange (key : String) (start stop : Int)
  | ZRangeByLex (key : String) (rb : RedisZRangeBy)
  | ZRangeByScore (key : String) (rb : RedisZRangeBy)
  | ZRangeWithScores (key : String) (start stop : Int)
  | ZRevRange (key : String) (start stop : Int)
  | ZRevRangeWithScores (key : String) (start stop : Int)
  | ZRank (key member : String)
  | ZRevRank (key member : String)
  | ZRem (key : String) (members : List (Any α))
  | ZIncr (key : String) (member : RedisZ α)
  | ZIncrNX (key : String) (member : RedisZ α)
  | ZIncrXX (key : String) (member : RedisZ α)
  | ZIncrBy (key : String) (increment : Float64) (member : String)
  | ZScore (key member : String)
  deriving Repr

/-- Go `*redis.Client` of the package `cache/redis`, whose source is outside this
development: the client is given by what `.Result()` of each command it is asked to
run returns, with one field per result type of the Go command objects. -/
structure Client (α : Type) where
  str : Cmd α → String × Option Err
  int : Cmd α → Int × Option Err
  bool : Cmd α → Bool × Option Err
  float : Cmd α → Float64 × Option Err
  strs : Cmd α → List String × Option Err
  vals : Cmd α → List (Any α) × Option Err
  strMap : Cmd α → List (String × String) × Option Err
  zs : Cmd α → List (RedisZ α) × Option Err

/-! ### The operations of `RedisExt`

Every operation takes, as `inst`, what `m.getRedisInstance(ctx)` returned: the client
of the backend instance for the namespace and routing group of the request, or the
error of `redis.DefaultInstanceManager.GetInstance`.  It yields the two Go results
together with the commands it issued on the backend, in order. -/

/-- The loop of `MSet` over `pairs`, from index `k` on: the element at an even index is
replaced by `m.prefixKey(v.(string))`, the element at an odd index is kept.  The type
assertion `v.(string)` panics on a value that is not a string: the result is `none`. -/
def RedisExt.prefixPairs {α : Type} (m : RedisExt) : Nat → List (Any α) → Option (List (Any α))
  | _, [] => some []
  | k, v :: rest =>
    if k &&& 1 = 0 then
      match v with
      | .str s => (RedisExt.prefixPairs m (k + 1) rest).map (fun out => .str (m.prefixKey s) :: out)
      | .other _ => none
    else
      (RedisExt.prefixPairs m (k + 1) rest).map (fun out => v :: out)

/-- Go `func (m *RedisExt) Get(ctx, key string) (s string, err error)`. -/
def RedisExt.Get {α : Type} (m : RedisExt) (inst : Except Err (Client α))
    (key : String) : (String × Option Err) × List (Cmd α) :=
  match inst with
  | .ok client =>
    let cmd : Cmd α := .Get (m.prefixKey key)
    (client.str cmd, [cmd])
  | .error err => (("", some err), [])

/-- Go `func (m *RedisExt) MGet(ctx, keys ...string) (v []interface{}, err error)`. -/
def RedisExt.MGet {α : Type} (m : RedisExt) (inst : Except Err (Client α))
    (keys : List String) : (List (Any α) × Option Err) × List (Cmd α) :=
  match inst with
  | .ok client =>
    let cmd : Cmd α := .MGet (keys.map m.prefixKey)
    (client.vals cmd, [cmd])
  | .error err => (([], some err), [])

/-- Go `func (m *RedisExt) Set(ctx, key string, val interface{}, exp time.Duration) (s string, err error)`. -/
def RedisExt.Set {α : Type} (m : RedisExt) (inst : Except Err (Client α))
    (key : String) (val : Any α) (exp : Int) : (String × Option Err) × List (Cmd α) :=
  match inst with
  | .ok client =>
    let cmd : Cmd α := .Set (m.prefixKey key) val exp
    (client.str cmd, [cmd])
  | .error err => (("", some err), [])

/-- Go `func (m *RedisExt) MSet(ctx, pairs ...interface{}) (s string, err error)`.  The
call panics when the instance is resolved and an even-indexed argument is not a string. -/
def RedisExt.MSet {α : Type} (m : RedisExt) (inst : Except Err (Client α))
    (pairs : List (Any α)) : ApolloConfig.Outcome ((String × Option Err) × List (Cmd α)) :=
  match inst with
  | .ok client =>
    match RedisExt.prefixPairs m 0 pairs with
    | some prefixPairs =>
      let cmd : Cmd α := .MSet prefixPairs
      .returned (client.str cmd, [cmd])
    | none => .panicked
  | .error err => .returned (("", some err), [])

/-- Go `func (m *RedisExt) GetBit(ctx, key string, offset int64) (n int64, err error)`. -/
def RedisExt.GetBit {α : Type} (m : RedisExt) (inst : Except Err (Client α))
    (key : String) (offset : Int) : (Int × Option Err) × List (Cmd α) :=
  match inst with
  | .ok client =>
    let cmd : Cmd α := .GetBit (m.prefixKey key) offset
    (client.int cmd, [cmd])
  | .error err => ((0, some err), [])

/-- Go `func (m *RedisExt) SetBit(ctx, key string, offset int64, value int) (n int64, err error)`. -/
def RedisExt.SetBit {α : Type} (m : RedisExt) (inst : Except Err (Client α))
    (key : String) (offset : Int) (value : Int) : (Int × Option Err) × List (Cmd α) :=
  match inst with
  | .ok client =>
    let cmd : Cmd α := .SetBit (m.prefixKey key) offset value
    (client.int cmd, [cmd])
  | .error err => ((0, some err), [])

/-- Go `func (m *RedisExt) Incr(ctx, key string) (n int64, err error)`. -/
def RedisExt.Incr {α : Type} (m : RedisExt) (inst : Except Err (Client α))
    (key : String) : (Int × Option Err) × List (Cmd α) :=
  match inst with
  | .ok client =>
    let cmd : Cmd α := .Incr (m.prefixKey key)
    (client.int cmd, [cmd])
  | .error err => ((0, some err), [])

/-- Go `func (m *RedisExt) IncrBy(ctx, key string, val int64) (n int64, err error)`. -/
def RedisExt.IncrBy {α : Type} (m : RedisExt) (inst : Except Err (Client α))
    (key : String) (val : Int) : (Int × Option Err) × List (Cmd α) :=
  match inst with
  | .ok client =>
    let cmd : Cmd α := .IncrBy (m.prefixKey key) val
    (client.int cmd, [cmd])
  | .error err => ((0, some err), [])

/-- Go `func (m *RedisExt) Decr(ctx, key string) (n int64, err error)`. -/
def RedisExt.Decr {α : Type} (m : RedisExt) (inst : Except Err (Client α))
    (key : String) : (Int × Option Err) × List (Cmd α) :=
  match inst with
  | .ok client =>
    let cmd : Cmd α := .Decr (m.prefixKey key)
    (client.int cmd, [cmd])
  | .error err => ((0, some err), [])

/-- Go `func (m *RedisExt) DecrBy(ctx, key string, val int64) (n int64, err error)`. -/
def RedisExt.DecrBy {α : Type} (m : RedisExt) (inst : Except Err (Client α))
    (key : String) (val : Int) : (Int × Option Err) × List (Cmd α) :=
  match inst with
  | .ok client =>
    let cmd : Cmd α := .DecrBy (m.prefixKey key) val
    (client.int cmd, [cmd])
  | .error err => ((0, some err), [])

/-- Go `func (m *RedisExt) SetNX(ctx, key string, val interface{}, exp time.Duration) (b bool, err error)`. -/
def RedisExt.SetNX {α : Type} (m : RedisExt) (inst : Except Err (Client α))
    (key : String) (val : Any α) (exp : Int) : (Bool × Option Err) × List (Cmd α) :=
  match inst with
  | .ok client =>
    let cmd : Cmd α := .SetNX (m.prefixKey key) val exp
    (client.bool cmd, [cmd])
  | .error err => ((false, some err), [])

/-- Go `func (m *RedisExt) Exists(ctx, key string) (n int64, err error)`. -/
def RedisExt.Exists {α : Type} (m : RedisExt) (inst : Except Err (Client α))
    (key : String) : (Int × Option Err) × List (Cmd α) :=
  match inst with
  | .ok client =>
    let cmd : Cmd α := .Exists (m.prefixKey key)
    (client.int cmd, [cmd])
  | .error err => ((0, some err), [])

/-- Go `func (m *RedisExt) Del(ctx, key string) (n int64, err error)`. -/
def RedisExt.Del {α : Type} (m : RedisExt) (inst : Except Err (Client α))
    (key : String) : (Int × Option Err) × List (Cmd α) :=
  match inst with
  | .ok client =>
    let cmd : Cmd α := .Del (m.prefixKey key)
    (client.int cmd, [cmd])
  | .error err => ((0, some err), [])

/-- Go `func (m *RedisExt) Expire(ctx, key string, expiration time.Duration) (b bool, err error)`. -/
def RedisExt.Expire {α : Type} (m : RedisExt) (inst : Except Err (Client α))
    (key : String) (expiration : Int) : (Bool × Option Err) × List (Cmd α) :=
  match inst with
  | .ok client =>
    let cmd : Cmd α := .Expire (m.prefixKey key) expiration
    (client.bool cmd, [cmd])
  | .error err => ((false, some err), [])

/-- Go `func (m *RedisExt) HSet(ctx, key string, field string, value interface{}) (b bool, err error)`. -/
def RedisExt.HSet {α : Type} (m : RedisExt) (inst : Except Err (Client α))
    (key : String) (field : String) (value : Any α) : (Bool × Option Err) × List (Cmd α) :=
  match inst with
  | .ok client =>
    let cmd : Cmd α := .HSet (m.prefixKey key) field value
    (client.bool cmd, [cmd])
  | .error err => ((false, some err), [])

/-- Go `func (m *RedisExt) HDel(ctx, key string, fields ...string) (n int64, err error)`. -/
def RedisExt.HDel {α : Type} (m : RedisExt) (inst : Except Err (Client α))
    (key : String) (fields : List String) : (Int × Option Err) × List (Cmd α) :=
  match inst with
  | .ok client =>
    let cmd : Cmd α := .HDel (m.prefixKey key) fields
    (client.int cmd, [cmd])
  | .error err => ((0, some err), [])

/-- Go `func (m *RedisExt) HExists(ctx, key string, field string) (b bool, err error)`. -/
def RedisExt.HExists {α : Type} (m : RedisExt) (inst : Except Err (Client α))
    (key : String) (field : String) : (Bool × Option Err) × List (Cmd α) :=
  match inst with
  | .ok client =>
    let cmd : Cmd α := .HExists (m.prefixKey key) field
    (client.bool cmd, [cmd])
  | .error err => ((false, some err), [])

/-- Go `func (m *RedisExt) HGet(ctx, key string, field string) (s string, err error)`. -/
def RedisExt.HGet {α : Type} (m : RedisExt) (inst : Except Err (Client α))
    (key : String) (field : String) : (String × Option Err) × List (Cmd α) :=
  match inst with
  | .ok client =>
    let cmd : Cmd α := .HGet (m.prefixKey key) field
    (client.str cmd, [cmd])
  | .error err => (("", some err), [])

/-- Go `func (m *RedisExt) HGetAll(ctx, key string) (sm map[string]string, err error)`. -/
def RedisExt.HGetAll {α : Type} (m : RedisExt) (inst : Except Err (Client α))
    (key : String) : (List (String × String) × Option Err) × List (Cmd α) :=
  match inst with
  | .ok client =>
    let cmd : Cmd α := .HGetAll (m.prefixKey key)
    (client.strMap cmd, [cmd])
  | .error err => (([], some err), [])

/-- Go `func (m *RedisExt) HIncrBy(ctx, key string, field string, incr int64) (n int64, err error)`. -/
def RedisExt.HIncrBy {α : Type} (m : RedisExt) (inst : Except Err (Client α))
    (key : String) (field : String) (incr : Int) : (Int × Option Err) × List (Cmd α) :=
  match inst with
  | .ok client =>
    let cmd : Cmd α := .HIncrBy (m.prefixKey key) field incr
    (client.int cmd, [cmd])
  | .error err => ((0, some err), [])

/-- Go `func (m *RedisExt) HIncrByFloat(ctx, key string, field string, incr float64) (f float64, err error)`. -/
def RedisExt.HIncrByFloat {α : Type} (m : RedisExt) (inst : Except Err (Client α))
    (key : String) (field : String) (incr : Float64) : (Float64 × Option Err) × List (Cmd α) :=
  match inst with
  | .ok client =>
    let cmd : Cmd α := .HIncrByFloat (m.prefixKey key) field incr
    (client.float cmd, [cmd])
  | .error err => ((⟨0⟩, some err), [])

/-- Go `func (m *RedisExt) HKeys(ctx, key string) (ss []string, err error)`. -/
def RedisExt.HKeys {α : Type} (m : RedisExt) (inst : Except Err (Client α))
    (key : String) : (List String × Option Err) × List (Cmd α) :=
  match inst with
  | .ok client =>
    let cmd : Cmd α := .HKeys (m.prefixKey key)
    (client.strs cmd, [cmd])
  | .error err => (([], some err), [])

/-- Go `func (m *RedisExt) HLen(ctx, key string) (n int64, err error)`. -/
def RedisExt.HLen {α : Type} (m : RedisExt) (inst : Except Err (Client α))
    (key : String) : (Int × Option Err) × List (Cmd α) :=
  match inst with
  | .ok client =>
    let cmd : Cmd α := .HLen (m.prefixKey key)
    (client.int cmd, [cmd])
  | .error err => ((0, some err), [])

/-- Go `func (m *RedisExt) HMGet(ctx, key string, fields ...string) (vs []interface{}, err error)`. -/
def RedisExt.HMGet {α : Type} (m : RedisExt) (inst : Except Err (Client α))
    (key : String) (fields : List String) : (List (Any α) × Option Err) × List (Cmd α) :=
  match inst with
  | .ok client =>
    let cmd : Cmd α := .HMGet (m.prefixKey key) fields
    (client.vals cmd, [cmd])
  | .error err => (([], some err), [])

/-- Go `func (m *RedisExt) HMSet(ctx, key string, fields map[string]interface{}) (s string, err error)`. -/
def RedisExt.HMSet {α : Type} (m : RedisExt) (inst : Except Err (Client α))
    (key : String) (fields : List (String × Any α)) : (String × Option Err) × List (Cmd α) :=
  match inst with
  | .ok client =>
    let cmd : Cmd α := .HMSet (m.prefixKey key) fields
    (client.str cmd, [cmd])
  | .error err => (("", some err), [])

/-- Go `func (m *RedisExt) HSetNX(ctx, key string, field string, val interface{}) (b bool, err error)`;
the method the source calls on the client is `client.HSet`. -/
def RedisExt.HSetNX {α : Type} (m : RedisExt) (inst : Except Err (Client α))
    (key : String) (field : String) (val : Any α) : (Bool × Option Err) × List (Cmd α) :=
  match inst with
  | .ok client =>
    let cmd : Cmd α := .HSet (m.prefixKey key) field val
    (client.bool cmd, [cmd])
  | .error err => ((false, some err), [])

/-- Go `func (m *RedisExt) HVals(ctx, key string) (ss []string, err error)`. -/
def RedisExt.HVals {α : Type} (m : RedisExt) (inst : Except Err (Client α))
    (key : String) : (List String × Option Err) × List (Cmd α) :=
  match inst with
  | .ok client =>
    let cmd : Cmd α := .HVals (m.prefixKey key)
    (client.strs cmd, [cmd])
  | .error err => (([], some err), [])

/-- Go `func (m *RedisExt) ZAdd(ctx, key string, members []Z) (n int64, err error)`. -/
def RedisExt.ZAdd {α : Type} (m : RedisExt) (inst : Except Err (Client α))
    (key : String) (members : List (Z α)) : (Int × Option Err) × List (Cmd α) :=
  match inst with
  | .ok client =>
    let cmd : Cmd α := .ZAdd (m.prefixKey key) (toRedisZSlice members)
    (client.int cmd, [cmd])
  | .error err => ((0, some err), [])

/-- Go `func (m *RedisExt) ZAddNX(ctx, key string, members []Z) (n int64, err error)`. -/
def RedisExt.ZAddNX {α : Type} (m : RedisExt) (inst : Except Err (Client α))
    (key : String) (members : List (Z α)) : (Int × Option Err) × List (Cmd α) :=
  match inst with
  | .ok client =>
    let cmd : Cmd α := .ZAddNX (m.prefixKey key) (toRedisZSlice members)
    (client.int cmd, [cmd])
  | .error err => ((0, some err), [])

/-- Go `func (m *RedisExt) ZAddNXCh(ctx, key string, members []Z) (n int64, err error)`. -/
def RedisExt.ZAddNXCh {α : Type} (m : RedisExt) (inst : Except Err (Client α))
    (key : String) (members : List (Z α)) : (Int × Option Err) × List (Cmd α) :=
  match inst with
  | .ok client =>
    let cmd : Cmd α := .ZAddNXCh (m.prefixKey key) (toRedisZSlice members)
    (client.int cmd, [cmd])
  | .error err => ((0, some err), [])

/-- Go `func (m *RedisExt) ZAddXX(ctx, key string, members []Z) (n int64, err error)`. -/
def RedisExt.ZAddXX {α : Type} (m : RedisExt) (inst : Except Err (Client α))
    (key : String) (members : List (Z α)) : (Int × Option Err) × List (Cmd α) :=
  match inst with
  | .ok client =>
    let cmd : Cmd α := .ZAddXX (m.prefixKey key) (toRedisZSlice members)
    (client.int cmd, [cmd])
  | .error err => ((0, some err), [])

/-- Go `func (m *RedisExt) ZAddXXCh(ctx, key string, members []Z) (n int64, err error)`. -/
def RedisExt.ZAddXXCh {α : Type} (m : RedisExt) (inst : Except Err (Client α))
    (key : String) (members : List (Z α)) : (Int × Option Err) × List (Cmd α) :=
  match inst with
  | .ok client =>
    let cmd : Cmd α := .ZAddXXCh (m.prefixKey key) (toRedisZSlice members)
    (client.int cmd, [cmd])
  | .error err => ((0, some err), [])

/-- Go `func (m *RedisExt) ZAddCh(ctx, key string, members []Z) (n int64, err error)`. -/
def RedisExt.ZAddCh {α : Type} (m : RedisExt) (inst : Except Err (Client α))
    (key : String) (members : List (Z α)) : (Int × Option Err) × List (Cmd α) :=
  match inst with
  | .ok client =>
    let cmd : Cmd α := .ZAddCh (m.prefixKey key) (toRedisZSlice members)
    (client.int cmd, [cmd])
  | .error err => ((0, some err), [])

/-- Go `func (m *RedisExt) ZCard(ctx, key string) (n int64, err error)`. -/
def RedisExt.ZCard {α : Type} (m : RedisExt) (inst : Except Err (Client α))
    (key : String) : (Int × Option Err) × List (Cmd α) :=
  match inst with
  | .ok client =>
    let cmd : Cmd α := .ZCard (m.prefixKey key)
    (client.int cmd, [cmd])
  | .error err => ((0, some err), [])

/-- Go `func (m *RedisExt) ZCount(ctx, key, min, max string) (n int64, err error)`. -/
def RedisExt.ZCount {α : Type} (m : RedisExt) (inst : Except Err (Client α))
    (key : String) (min max : String) : (Int × Option Err) × List (Cmd α) :=
  match inst with
  | .ok client =>
    let cmd : Cmd α := .ZCount (m.prefixKey key) min max
    (client.int cmd, [cmd])
  | .error err => ((0, some err), [])

/-- Go `func (m *RedisExt) ZRange(ctx, key string, start, stop int64) (ss []string, err error)`. -/
def RedisExt.ZRange {α : Type} (m : RedisExt) (inst : Except Err (Client α))
    (key : String) (start stop : Int) : (List String × Option Err) × List (Cmd α) :=
  match inst with
  | .ok client =>
    let cmd : Cmd α := .ZRange (m.prefixKey key) start stop
    (client.strs cmd, [cmd])
  | .error err => (([], some err), [])

/-- Go `func (m *RedisExt) ZRangeByLex(ctx, key string, by ZRangeBy) (ss []string, err error)`. -/
def RedisExt.ZRangeByLex {α : Type} (m : RedisExt) (inst : Except Err (Client α))
    (key : String) (rb : ZRangeBy) : (List String × Option Err) × List (Cmd α) :=
  match inst with
  | .ok client =>
    let cmd : Cmd α := .ZRangeByLex (m.prefixKey key) (toRedisZRangeBy rb)
    (client.strs cmd, [cmd])
  | .error err => (([], some err), [])

/-- Go `func (m *RedisExt) ZRangeByScore(ctx, key string, by ZRangeBy) (ss []string, err error)`. -/
def RedisExt.ZRangeByScore {α : Type} (m : RedisExt) (inst : Except Err (Client α))
    (key : String) (rb : ZRangeBy) : (List String × Option Err) × List (Cmd α) :=
  match inst with
  | .ok client =>
    let cmd : Cmd α := .ZRangeByScore (m.prefixKey key) (toRedisZRangeBy rb)
    (client.strs cmd, [cmd])
  | .error err => (([], some err), [])

/-- Go `func (m *RedisExt) ZRangeWithScores(ctx, key string, start, stop int64) (zs []Z, err error)`. -/
def RedisExt.ZRangeWithScores {α : Type} (m : RedisExt) (inst : Except Err (Client α))
    (key : String) (start stop : Int) : (List (Z α) × Option Err) × List (Cmd α) :=
  match inst with
  | .ok client =>
    let cmd : Cmd α := .ZRangeWithScores (m.prefixKey key) start stop
    let r := client.zs cmd
    ((fromRedisZSlice r.1, r.2), [cmd])
  | .error err => (([], some err), [])

/-- Go `func (m *RedisExt) ZRevRange(ctx, key string, start, stop int64) (ss []string, err error)`. -/
def RedisExt.ZRevRange {α : Type} (m : RedisExt) (inst : Except Err (Client α))
    (key : String) (start stop : Int) : (List String × Option Err) × List (Cmd α) :=
  match inst with
  | .ok client =>
    let cmd : Cmd α := .ZRevRange (m.prefixKey key) start stop
    (client.strs cmd, [cmd])
  | .error err => (([], some err), [])

/-- Go `func (m *RedisExt) ZRevRangeWithScores(ctx, key string, start, stop int64) (zs []Z, err error)`. -/
def RedisExt.ZRevRangeWithScores {α : Type} (m : RedisExt) (inst : Except Err (Client α))
    (key : String) (start stop : Int) : (List (Z α) × Option Err) × List (Cmd α) :=
  match inst with
  | .ok client =>
    let cmd : Cmd α := .ZRevRangeWithScores (m.prefixKey key) start stop
    let r := client.zs cmd
    ((fromRedisZSlice r.1, r.2), [cmd])
  | .error err => (([], some err), [])

/-- Go `func (m *RedisExt) ZRank(ctx, key string, member string) (n int64, err error)`. -/
def RedisExt.ZRank {α : Type} (m : RedisExt) (inst : Except Err (Client α))
    (key : String) (member : String) : (Int × Option Err) × List (Cmd α) :=
  match inst with
  | .ok client =>
    let cmd : Cmd α := .ZRank (m.prefixKey key) member
    (client.int cmd, [cmd])
  | .error err => ((0, some err), [])

/-- Go `func (m *RedisExt) ZRevRank(ctx, key string, member string) (n int64, err error)`. -/
def RedisExt.ZRevRank {α : Type} (m : RedisExt) (inst : Except Err (Client α))
    (key : String) (member : String) : (Int × Option Err) × List (Cmd α) :=
  match inst with
  | .ok client =>
    let cmd : Cmd α := .ZRevRank (m.prefixKey key) member
    (client.int cmd, [cmd])
  | .error err => ((0, some err), [])

/-- Go `func (m *RedisExt) ZRem(ctx, key string, members []interface{}) (n int64, err error)`. -/
def RedisExt.ZRem {α : Type} (m : RedisExt) (inst : Except Err (Client α))
    (key : String) (members : List (Any α)) : (Int × Option Err) × List (Cmd α) :=
  match inst with
  | .ok client =>
    let cmd : Cmd α := .ZRem (m.prefixKey key) members
    (client.int cmd, [cmd])
  | .error err => ((0, some err), [])

/-- Go `func (m *RedisExt) ZIncr(ctx, key string, member Z) (f float64, err error)`. -/
def RedisExt.ZIncr {α : Type} (m : RedisExt) (inst : Except Err (Client α))
    (key : String) (member : Z α) : (Float64 × Option Err) × List (Cmd α) :=
  match inst with
  | .ok client =>
    let cmd : Cmd α := .ZIncr (m.prefixKey key) member.toRedisZ
    (client.float cmd, [cmd])
  | .error err => ((⟨0⟩, some err), [])

/-- Go `func (m *RedisExt) ZIncrNX(ctx, key string, member Z) (f float64, err error)`. -/
def RedisExt.ZIncrNX {α : Type} (m : RedisExt) (inst : Except Err (Client α))
    (key : String) (member : Z α) : (Float64 × Option Err) × List (Cmd α) :=
  match inst with
  | .ok client =>
    let cmd : Cmd α := .ZIncrNX (m.prefixKey key) member.toRedisZ
    (client.float cmd, [cmd])
  | .error err => ((⟨0⟩, some err), [])

/-- Go `func (m *RedisExt) ZIncrXX(ctx, key string, member Z) (f float64, err error)`. -/
def RedisExt.ZIncrXX {α : Type} (m : RedisExt) (inst : Except Err (Client α))
    (key : String) (member : Z α) : (Float64 × Option Err) × List (Cmd α) :=
  match inst with
  | .ok client =>
    let cmd : Cmd α := .ZIncrXX (m.prefixKey key) member.toRedisZ
    (client.float cmd, [cmd])
  | .error err => ((⟨0⟩, some err), [])

/-- Go `func (m *RedisExt) ZIncrBy(ctx, key string, increment float64, member string) (f float64, err error)`. -/
def RedisExt.ZIncrBy {α : Type} (m : RedisExt) (inst : Except Err (Client α))
    (key : String) (increment : Float64) (member : String) : (Float64 × Option Err) × List (Cmd α) :=
  match inst with
  | .ok client =>
    let cmd : Cmd α := .ZIncrBy (m.prefixKey key) increment member
    (client.float cmd, [cmd])
  | .error err => ((⟨0⟩, some err), [])

/-- Go `func (m *RedisExt) ZScore(ctx, key string, member string) (f float64, err error)`. -/
def RedisExt.ZScore {α : Type} (m : RedisExt) (inst : Except Err (Client α))
    (key : String) (member : String) : (Float64 × Option Err) × List (Cmd α) :=
  match inst with
  | .ok client =>
    let cmd : Cmd α := .ZScore (m.prefixKey key) member
    (client.float cmd, [cmd])
  | .error err => ((⟨0⟩, some err), [])

/-- A backend client that answers every command with the zero value and no error,
except that status replies are "OK". -/
def okClient : Client Int :=
  { str := fun _ => ("OK", none)
    int := fun _ => (0, none)
    bool := fun _ => (false, none)
    float := fun _ => (⟨0⟩, none)
    strs := fun _ => ([], none)
    vals := fun _ => ([], none)
    strMap := fun _ => ([], none)
    zs := fun _ => ([], none) }

/-- What the specification asks of an operation `op` whose result has zero value `zero`:
when resolving the backend instance fails with `err`, `op` returns `zero` with exactly
that error and issues no command; when it succeeds with `client`, `op` issues exactly
one command and returns `result client cmd`, what the client answers to it. -/
@[reducible]
def Delegates {α R : Type} (zero : R)
    (op : Except Err (Client α) → (R × Option Err) × List (Cmd α))
    (result : Client α → Cmd α → R × Option Err) : Prop :=
  (∀ err, op (.error err) = ((zero, some err), [])) ∧
  (∀ client, ∃ cmd, op (.ok client) = (result client cmd, [cmd]))

/-! ## `stime`: the back-off controller -/

/-- Modelled from the spec: `stime.BackOffCtrl`, whose source is not part of this
development (only its test is).  The state is "current delay, base delay, ceiling
delay", in nanoseconds; a current delay of zero is the initial state. -/
structure BackOffCtrl where
  current : Nat
  base : Nat
  ceiling : Nat
  deriving DecidableEq, Repr

/-- Modelled from the spec: `stime.NewBackOffCtrl(base, ceiling)`, absent from the
sources; a fresh controller is in its initial state. -/
def NewBackOffCtrl (base ceiling : Nat) : BackOffCtrl :=
  { current := 0, base := base, ceiling := ceiling }

/-- Modelled from the spec: `BackOffCtrl.Reset`, absent from the sources:
"returns the controller to its initial state". -/
def BackOffCtrl.Reset (m : BackOffCtrl) : BackOffCtrl :=
  { m with current := 0 }

/-- Modelled from the spec: `BackOffCtrl.BackOff`, absent from the sources.  It
returns the delay it waits for and the next state: the first call after construction
or reset waits zero; the delay then starts at the base and each further call doubles
the previous delay, capped at the ceiling. -/
def BackOffCtrl.BackOff (m : BackOffCtrl) : Nat × BackOffCtrl :=
  (m.current,
    { m with current := if m.current = 0 then min m.base m.ceiling
                        else min (2 * m.current) m.ceiling })

/-- The waits of `n` consecutive `BackOff` calls, oldest first, and the state after them. -/
def BackOffCtrl.run : Nat → BackOffCtrl → List Nat × BackOffCtrl
  | 0, m => ([], m)
  | n + 1, m =>
    let r := m.BackOff
    let rest := BackOffCtrl.run n r.2
    (r.1 :: rest.1, rest.2)

/-! ## `cache/value`: the read-through cache -/

/-- Errors a cache call can return: the stored bytes do not have the expected shape,
the backend could not be reached, or the loader failed with its own error, which is
passed through. -/
inductive CacheError (E : Type) where
  | DeserializationError
  | BackendUnavailable
  | LoaderError (e : E)
  deriving DecidableEq, Repr

/-- Modelled from the spec: the `cache/value` cache, whose source is not part of this
development (only its test is).  A cache is configured with a TTL, a loader callback
and the serialisation of its values. -/
structure ValueCache (K V E B : Type) where
  ttl : Nat
  loader : K → Except E V
  serialize : V → B
  deserialize : B → Option V

/-- Modelled from the spec: the state a cache acts on, its source being absent.  The
backend holds, per key, the serialised value and its absolute expiration time;
`loads` records every loader invocation, oldest first. -/
structure CacheState (K B : Type) where
  store : K → Option (B × Nat)
  loads : List K

/-- Modelled from the spec: what the backend client's `get(key) -> (bytes, found, error)`
reports, the client being absent from the sources: the bytes of an entry, "not
found", or a transport error, which is reported "distinguishably". -/
inductive ReadResult (B : Type) where
  | found (bytes : B)
  | notFound
  | failed
  deriving DecidableEq, Repr

namespace ValueCache

variable {K V E B : Type} [DecidableEq K]

/-- Modelled from the spec: the backend read, absent from the sources.  `readFails`
tells whether this read meets a transport error.  An entry is visible until its
expiration time; "expired entries are indistinguishable from never-written entries". -/
def backendGet (s : CacheState K B) (now : Nat) (readFails : Bool) (key : K) : ReadResult B :=
  if readFails then .failed
  else
    match s.store key with
    | some (bytes, expires) => if now < expires then .found bytes else .notFound
    | none => .notFound

/-- Modelled from the spec: the backend write `set(key, bytes, ttl) -> error`, absent from
the sources.  `writeFails` tells whether this write meets a transport error, in which
case nothing is stored (`none`); otherwise the entry expires at "now + configured
TTL". -/
def backendSet (s : CacheState K B) (now ttl : Nat) (writeFails : Bool) (key : K) (bytes : B) :
    Option (CacheState K B) :=
  if writeFails then none
  else some { s with store := fun k => if k = key then some (bytes, now + ttl) else s.store k }

/-- Modelled from the spec: `Load(ctx, key)`, absent from the sources.  It
"unconditionally forces a loader invocation" and, when the loader succeeds, writes the
serialised value to the backend; a write that fails is surfaced as
`BackendUnavailable`; when the loader fails "no backend write occurs". -/
def Load (c : ValueCache K V E B) (now : Nat) (writeFails : Bool) (s : CacheState K B) (key : K) :
    Except (CacheError E) V × CacheState K B :=
  let loaded : CacheState K B := { s with loads := s.loads ++ [key] }
  match c.loader key with
  | .ok v =>
    match backendSet loaded now c.ttl writeFails key (c.serialize v) with
    | some written => (.ok v, written)
    | none => (.error .BackendUnavailable, loaded)
  | .error e => (.error (.LoaderError e), loaded)

/-- Modelled from the spec: `Get(ctx, key, outPtr)`, absent from the sources.  On a
hit the stored bytes are deserialised into the out value; "on miss (backend reports
not-found) or on transient backend read error" the loader is invoked and its value
written back.  The first component is the error or the value the out pointer is
filled with. -/
def Get (c : ValueCache K V E B) (now : Nat) (readFails writeFails : Bool)
    (s : CacheState K B) (key : K) : Except (CacheError E) V × CacheState K B :=
  match backendGet s now readFails key with
  | .found bytes =>
    match c.deserialize bytes with
    | some v => (.ok v, s)
    | none => (.error .DeserializationError, s)
  | .notFound => Load c now writeFails s key
  | .failed => Load c now writeFails s key

/-- Modelled from the spec: `Del(ctx, key)`, absent from the sources: "removes the
backend entry for key"; deleting an absent key is not an error, a backend that cannot
be reached is. -/
def Del (_c : ValueCache K V E B) (delFails : Bool) (s : CacheState K B) (key : K) :
    Option (CacheError E) × CacheState K B :=
  if delFails then (some .BackendUnavailable, s)
  else (none, { s with store := fun k => if k = key then none else s.store k })

end ValueCache

theorem intercalate_cons_cons {α : Type} (sep x y : List α) (l : List (List α)) :
    sep.intercalate (x :: y :: l) = x ++ sep ++ sep.intercalate (y :: l) := by
  simp [List.intercalate, List.intersperse]

theorem intercalate_append {α : Type} (sep : List α) (a b : List (List α))
    (ha : a ≠ []) (hb : b ≠ []) :
    sep.intercalate (a ++ b) = sep.intercalate a ++ sep ++ sep.intercalate b := by
  induction a with
  | nil => exact absurd rfl ha
  | cons x a ih =>
    cases a with
    | nil =>
      cases b with
      | nil => exact absurd rfl hb
      | cons y b => simp [List.intercalate, List.intersperse]
    | cons x2 a =>
      have h := ih (by simp)
      rw [List.cons_append, List.cons_append, intercalate_cons_cons, ← List.cons_append, h,
        intercalate_cons_cons]
      simp [List.append_assoc]

theorem Join_data (elems : List String) (sep : Char) :
    (strings.Join elems sep).data = [sep].intercalate (elems.map String.data) := rfl

theorem Join_Split (s : String) (sep : Char) : strings.Join (strings.Split s sep) sep = s := by
  apply String.ext
  have h : List.map String.data (List.map String.mk (s.data.splitOn sep)) = s.data.splitOn sep := by
    rw [List.map_map]
    exact List.map_id _
  rw [Join_data, strings.Split, h, List.intercalate_splitOn]

/-! ## `ApolloConfig.ParseKey` -/

/-- C1: `ApolloConfig.ParseKey` returns an error if and only if the key, split on
".", has fewer than 4 segments, and it returns a `KeyParts` (and no error) if and
only if the key has 4 or more segments. -/
theorem ParseKey_error_iff_fewer_than_four (key : String) :
    ((∃ e, ApolloConfig.ParseKey key = .error e) ↔ (strings.Split key '.').length < 4) ∧
    ((∃ kp, ApolloConfig.ParseKey key = .ok kp) ↔ 4 ≤ (strings.Split key '.').length) := by
  unfold ApolloConfig.ParseKey apolloConfigSep
  by_cases h : (strings.Split key '.').length < 4
  · simp [h]
  · simp [h]
    omega

/-- C2: for a key whose "."-split has `n ≥ 4` segments, `ParseKey` succeeds with
`Group` the segment at index `n-3` and `Topic` the first `n-3` segments joined by
".", and `Topic + "." + Group + "." +` (the last two segments joined by ".") is the
original key. -/
theorem ParseKey_topic_group (key : String)
    (h : 4 ≤ (strings.Split key '.').length) :
    ∃ kp, ApolloConfig.ParseKey key = .ok kp ∧
      (strings.Split key '.')[(strings.Split key '.').length - 3]? = some kp.Group ∧
      kp.Topic = strings.Join ((strings.Split key '.').take ((strings.Split key '.').length - 3)) '.' ∧
      ((strings.Split key '.').drop ((strings.Split key '.').length - 2)).length = 2 ∧
      kp.Topic ++ "." ++ kp.Group ++ "." ++
        strings.Join ((strings.Split key '.').drop ((strings.Split key '.').length - 2)) '.' = key := by
  have hkey : strings.Join (strings.Split key '.') '.' = key := Join_Split key '.'
  unfold ApolloConfig.ParseKey apolloConfigSep
  generalize strings.Split key '.' = parts at h hkey ⊢
  have hlt : parts.length - 3 < parts.length := by omega
  have hnot : ¬ parts.length < 4 := by omega
  refine ⟨⟨strings.Join (parts.take (parts.length - 3)) '.', parts.getD (parts.length - 3) ""⟩,
    ?_, ?_, rfl, ?_, ?_⟩
  · simp only [hnot, if_false]
  · simp [List.getD, List.getElem?_eq_getElem hlt]
  · simp only [List.length_drop]; omega
  · have hsplit : parts = parts.take (parts.length - 3) ++
        (parts.getD (parts.length - 3) "" :: parts.drop (parts.length - 2)) := by
      have h1 : parts.drop (parts.length - 3) =
          parts.getD (parts.length - 3) "" :: parts.drop (parts.length - 2) := by
        have h2 : parts.length - 2 = (parts.length - 3) + 1 := by omega
        rw [h2, List.getD_eq_getElem _ _ hlt]
        exact List.drop_eq_getElem_cons hlt
      rw [← h1, List.take_append_drop]
    have hdrop : parts.drop (parts.length - 2) ≠ [] := by
      intro h0
      have h3 := congrArg List.length h0
      simp only [List.length_drop, List.length_nil] at h3
      omega
    have htake : parts.take (parts.length - 3) ≠ [] := by
      intro h0
      have h3 := congrArg List.length h0
      simp only [List.length_take, List.length_nil] at h3
      omega
    apply String.ext
    conv_rhs => rw [← hkey, hsplit]
    obtain ⟨y, ys, hy⟩ := List.exists_cons_of_ne_nil hdrop
    simp only [String.data_append, Join_data, List.map_append, List.map_cons]
    rw [intercalate_append _ _ _ (by simpa using htake) (by simp)]
    rw [hy, List.map_cons, intercalate_cons_cons]
    simp [List.append_assoc]

/-- The theorem for C2 at the key "a.b.c.d.e": topic "a.b", group "c". -/
theorem ParseKey_topic_group_witness :
    ∃ kp, ApolloConfig.ParseKey "a.b.c.d.e" = .ok kp ∧
      (strings.Split "a.b.c.d.e" '.')[(strings.Split "a.b.c.d.e" '.').length - 3]? = some kp.Group ∧
      kp.Topic = strings.Join ((strings.Split "a.b.c.d.e" '.').take
        ((strings.Split "a.b.c.d.e" '.').length - 3)) '.' ∧
      ((strings.Split "a.b.c.d.e" '.').drop ((strings.Split "a.b.c.d.e" '.').length - 2)).length = 2 ∧
      kp.Topic ++ "." ++ kp.Group ++ "." ++
        strings.Join ((strings.Split "a.b.c.d.e" '.').drop
          ((strings.Split "a.b.c.d.e" '.').length - 2)) '.' = "a.b.c.d.e" :=
  ParseKey_topic_group "a.b.c.d.e" (by decide)

/-! ## `ApolloConfig.GetConfig` -/

theorem Join_four_data (a b c d : String) (sep : Char) :
    (strings.Join [a, b, c, d] sep).data =
      a.data ++ sep :: (b.data ++ sep :: (c.data ++ sep :: d.data)) := by
  simp [strings.Join, List.intercalate, List.intersperse]

theorem buildKey_eq (K : Consts) (ctx : Ctx) (topic item : String) :
    ApolloConfig.buildKey K ctx topic item =
      strings.Join [topic, GetControlRouteGroupWithDefault ctx K.defaultRouteGroup, "kafka", item]
        '.' := rfl

theorem defaultCtx_group (K : Consts) (ctx : Ctx) :
    GetControlRouteGroupWithDefault (ctx.WithControl ⟨K.defaultRouteGroup⟩) K.defaultRouteGroup =
      K.defaultRouteGroup := rfl

theorem Join_four_group_inj (t g g2 k i : String) (sep : Char)
    (h : strings.Join [t, g, k, i] sep = strings.Join [t, g2, k, i] sep) : g = g2 := by
  have hd := congrArg String.data h
  rw [Join_four_data, Join_four_data] at hd
  have h1 := List.append_cancel_left hd
  injection h1 with _ h2
  have h3 : g.data ++ (sep :: (k.data ++ sep :: i.data)) =
      g2.data ++ (sep :: (k.data ++ sep :: i.data)) := h2
  exact String.ext (List.append_cancel_right h3)

theorem brokers_key_ne_offsetat_key (t g k t2 g2 k2 : String) :
    strings.Join [t, g, k, apolloBrokersKey] '.' ≠
      strings.Join [t2, g2, k2, apolloOffsetAtKey] '.' := by
  intro h
  have hd := congrArg (fun x => x.data.reverse.head?) h
  simp [Join_four_data, apolloBrokersKey, apolloOffsetAtKey] at hd

theorem getConfigItemWithFallback_eq (K : Consts) (m : ConfigCenter) (ctx : Ctx)
    (topic name : String) :
    ApolloConfig.getConfigItemWithFallback K m ctx topic name =
      if (m.GetStringWithNamespace ctx K.DefaultApolloMQNamespace
            (ApolloConfig.buildKey K ctx topic name)).2 = true then
        (m.GetStringWithNamespace ctx K.DefaultApolloMQNamespace
            (ApolloConfig.buildKey K ctx topic name),
          [⟨K.DefaultApolloMQNamespace, ApolloConfig.buildKey K ctx topic name⟩])
      else
        (m.GetStringWithNamespace (ctx.WithControl ⟨K.defaultRouteGroup⟩)
            K.DefaultApolloMQNamespace
            (ApolloConfig.buildKey K (ctx.WithControl ⟨K.defaultRouteGroup⟩) topic name),
          [⟨K.DefaultApolloMQNamespace, ApolloConfig.buildKey K ctx topic name⟩,
           ⟨K.DefaultApolloMQNamespace,
            ApolloConfig.buildKey K (ctx.WithControl ⟨K.defaultRouteGroup⟩) topic name⟩]) := by
  unfold ApolloConfig.getConfigItemWithFallback
  cases h : (m.GetStringWithNamespace ctx K.DefaultApolloMQNamespace
      (ApolloConfig.buildKey K ctx topic name)).2 <;> simp [h]

/-- C3: `ApolloConfig.GetConfig` applies the fallback policy to the brokers item.
With `group` the routing group of the request, `reqKey` the key built from
`(topic, group)` and `defKey` the key built from `(topic, default group)`:
the brokers value used is the one stored under `reqKey` when that key is present,
otherwise the one stored under `defKey`; `GetConfig` returns an error exactly when
the brokers item is present under neither key; and when `reqKey` is present the
brokers item costs the single lookup of `reqKey`, so that `defKey`, when it is a
different key, is not consulted at all during the call. -/
theorem GetConfig_brokers_fallback (K : Consts) (m : ConfigCenter) (ctx : Ctx) (topic : String) :
    let ns := K.DefaultApolloMQNamespace
    let group := GetControlRouteGroupWithDefault ctx K.defaultRouteGroup
    let reqKey := strings.Join [topic, group, "kafka", "brokers"] '.'
    let defKey := strings.Join [topic, K.defaultRouteGroup, "kafka", "brokers"] '.'
    let r1 := m.GetStringWithNamespace ctx ns reqKey
    let r2 := m.GetStringWithNamespace (ctx.WithControl ⟨K.defaultRouteGroup⟩) ns defKey
    ((ApolloConfig.GetConfig K m ctx topic).1.map (fun c => c.MQAddr) =
        if r1.2 = true then .ok (ApolloConfig.parseBrokers r1.1)
        else if r2.2 = true then .ok (ApolloConfig.parseBrokers r2.1)
        else .error "ApolloConfig.GetConfig--> no brokers config found") ∧
    ((∃ e, (ApolloConfig.GetConfig K m ctx topic).1 = .error e) ↔
        (r1.2 = false ∧ r2.2 = false)) ∧
    ((ApolloConfig.getConfigItemWithFallback K m ctx topic apolloBrokersKey).2 =
        if r1.2 = true then [⟨ns, reqKey⟩] else [⟨ns, reqKey⟩, ⟨ns, defKey⟩]) ∧
    (r1.2 = true →
        (ApolloConfig.GetConfig K m ctx topic).2.head? = some ⟨ns, reqKey⟩ ∧
        (group ≠ K.defaultRouteGroup → (⟨ns, defKey⟩ : Lookup) ∉ (ApolloConfig.GetConfig K m ctx topic).2)) := by
  intro ns group reqKey defKey r1 r2
  have hreq : ApolloConfig.buildKey K ctx topic apolloBrokersKey = reqKey := rfl
  have hdef : ApolloConfig.buildKey K (ctx.WithControl ⟨K.defaultRouteGroup⟩) topic
      apolloBrokersKey = defKey := rfl
  have hb := getConfigItemWithFallback_eq K m ctx topic apolloBrokersKey
  have ho := getConfigItemWithFallback_eq K m ctx topic apolloOffsetAtKey
  rw [hreq, hdef] at hb
  change ApolloConfig.getConfigItemWithFallback K m ctx topic apolloBrokersKey =
    if r1.2 = true then (r1, [⟨ns, reqKey⟩]) else (r2, [⟨ns, reqKey⟩, ⟨ns, defKey⟩]) at hb
  unfold ApolloConfig.GetConfig
  rw [hb]
  clear hb
  clear_value r1 r2
  obtain ⟨v1, ok1⟩ := r1
  obtain ⟨v2, ok2⟩ := r2
  have hne : group ≠ K.defaultRouteGroup → (⟨ns, defKey⟩ : Lookup) ∉
      (⟨ns, reqKey⟩ : Lookup) ::
        (ApolloConfig.getConfigItemWithFallback K m ctx topic apolloOffsetAtKey).2 := by
    intro hg
    rw [ho, List.mem_cons, not_or]
    refine ⟨fun h => hg ?_, ?_⟩
    · injection h with _ hk
      exact (Join_four_group_inj topic _ _ "kafka" "brokers" '.' hk).symm
    · split <;> simp only [List.mem_cons, List.mem_singleton, List.not_mem_nil, or_false, not_or,
        Lookup.mk.injEq, true_and]
      · exact brokers_key_ne_offsetat_key _ _ _ _ _ _
      · exact ⟨brokers_key_ne_offsetat_key _ _ _ _ _ _, brokers_key_ne_offsetat_key _ _ _ _ _ _⟩
  cases ok1 <;> cases ok2 <;> simp [Except.map] <;>
    (intro hg; simpa [List.mem_cons, not_or] using hne hg)

/-! ## `apolloObserver.HandleChangeEvent` -/

/-- C4: `HandleChangeEvent` sends on the watch channel if and only if the namespace of
the event is the MQ namespace the config source was initialised for: in that case
exactly one event, carrying the namespace of the incoming one, is appended to what was
sent before; an event of any other namespace leaves the observer and its channel as
they were. -/
theorem HandleChangeEvent_delivers_iff {Change : Type} (K : Consts) (ob : apolloObserver Change)
    (event : ChangeEvent Change) :
    ((∃ e, (ob.HandleChangeEvent K event).ch = ob.ch ++ [e] ∧ e.Namespace = event.Namespace) ↔
        event.Namespace = K.DefaultApolloMQNamespace) ∧
    (ob.HandleChangeEvent K event = ob ↔ event.Namespace ≠ K.DefaultApolloMQNamespace) ∧
    ((ob.HandleChangeEvent K event).ch = ob.ch ↔ event.Namespace ≠ K.DefaultApolloMQNamespace) := by
  unfold apolloObserver.HandleChangeEvent
  by_cases h : event.Namespace = K.DefaultApolloMQNamespace
  · have hne : ∀ e : ChangeEvent Change, ob.ch ++ [e] ≠ ob.ch := by
      intro e he
      have hl := congrArg List.length he
      simp at hl
    refine ⟨?_, ?_, ?_⟩
    · simp [h]
    · simp only [h, ne_eq, not_true_eq_false, if_false, iff_false]
      intro he
      exact hne _ (congrArg apolloObserver.ch he)
    · simp only [h, ne_eq, not_true_eq_false, if_false, iff_false]
      exact hne _
  · refine ⟨?_, ?_, ?_⟩
    · simp only [ne_eq, h, not_false_eq_true, if_true, iff_false]
      rintro ⟨e, he, -⟩
      have hl := congrArg List.length he
      simp at hl
    · simp [h]
    · simp [h]

/-! ## `RedisExt.prefixKey` -/

theorem prefixKey_data_of_ne (m : RedisExt) (key : String) (h : m.pfx ≠ "") :
    (m.prefixKey key).data = (m.pfx.data ++ ['.']) ++ key.data := by
  have hlen : m.pfx.length > 0 := by
    rcases hp : m.pfx with ⟨l⟩
    cases l with
    | nil => exact absurd hp h
    | cons a l => simp [String.length]
  unfold RedisExt.prefixKey
  rw [if_pos hlen]
  simp [String.data_append]

theorem prefixKey_of_empty (m : RedisExt) (key : String) (h : m.pfx = "") :
    m.prefixKey key = key := by
  unfold RedisExt.prefixKey
  simp [h]

theorem prefixKey_injective (m : RedisExt) (k1 k2 : String)
    (h : m.prefixKey k1 = m.prefixKey k2) : k1 = k2 := by
  by_cases hp : m.pfx = ""
  · rwa [prefixKey_of_empty m k1 hp, prefixKey_of_empty m k2 hp] at h
  · have hd := congrArg String.data h
    rw [prefixKey_data_of_ne m k1 hp, prefixKey_data_of_ne m k2 hp] at hd
    exact String.ext (List.append_cancel_left hd)

theorem dotted_prefix_eq (p q : List Char) (hq : '.' ∉ q)
    (h : (p ++ ['.']) <+: (q ++ ['.'])) : p = q := by
  obtain ⟨r, hr⟩ := h
  rw [List.append_assoc, List.append_eq_append_iff] at hr
  rcases hr with ⟨a, ha, hb⟩ | ⟨c, hc, hd⟩
  · cases a with
    | nil => simpa using ha.symm
    | cons x a =>
      simp only [List.singleton_append, List.cons_append, List.cons.injEq] at hb
      exact absurd (by rw [ha, hb.1]; simp) hq
  · cases c with
    | nil => simpa using hc
    | cons x c =>
      have hl := congrArg List.length hd
      simp at hl

/-- The counterexample to C5: the caches with prefixes "a" and "a.b" are different, yet
the caller keys "b.c" of the first and "c" of the second give the same backend key. -/
theorem prefixKey_collision :
    (RedisExt.mk "test" "a").pfx ≠ (RedisExt.mk "test" "a.b").pfx ∧
    (RedisExt.mk "test" "a").prefixKey "b.c" = (RedisExt.mk "test" "a.b").prefixKey "c" := by
  decide

/-- C5, amended: for two caches whose prefixes are both non-empty, the backend keys
of the first never coincide with those of the second exactly when neither prefix
followed by "." is an initial part of the other followed by "."; this is the case for
any two different non-empty prefixes that contain no "."; and for one fixed
prefix (of any cache `m`), distinct caller keys give distinct backend keys. -/
theorem prefixKey_collision_free (m m1 m2 : RedisExt) (h1 : m1.pfx ≠ "") (h2 : m2.pfx ≠ "") :
    ((∀ k1 k2, m1.prefixKey k1 ≠ m2.prefixKey k2) ↔
      (¬ (m1.pfx ++ ".").data <+: (m2.pfx ++ ".").data ∧
       ¬ (m2.pfx ++ ".").data <+: (m1.pfx ++ ".").data)) ∧
    ('.' ∉ m1.pfx.data → '.' ∉ m2.pfx.data → m1.pfx ≠ m2.pfx →
      ∀ k1 k2, m1.prefixKey k1 ≠ m2.prefixKey k2) ∧
    (∀ k1 k2, k1 ≠ k2 → m.prefixKey k1 ≠ m.prefixKey k2) := by
  have hdot : ∀ p : String, (p ++ ".").data = p.data ++ ['.'] := fun p => by
    simp [String.data_append]
  have hiff : (∀ k1 k2, m1.prefixKey k1 ≠ m2.prefixKey k2) ↔
      (¬ (m1.pfx ++ ".").data <+: (m2.pfx ++ ".").data ∧
       ¬ (m2.pfx ++ ".").data <+: (m1.pfx ++ ".").data) := by
    rw [hdot, hdot]
    constructor
    · intro hfree
      constructor
      · rintro ⟨r, hr⟩
        apply hfree (String.mk r) ""
        apply String.ext
        rw [prefixKey_data_of_ne m1 _ h1, prefixKey_data_of_ne m2 _ h2, hr]
        simp
      · rintro ⟨r, hr⟩
        apply hfree "" (String.mk r)
        apply String.ext
        rw [prefixKey_data_of_ne m1 _ h1, prefixKey_data_of_ne m2 _ h2, hr]
        simp
    · rintro ⟨hn1, hn2⟩ k1 k2 heq
      have hd := congrArg String.data heq
      rw [prefixKey_data_of_ne m1 _ h1, prefixKey_data_of_ne m2 _ h2] at hd
      have p1 : (m1.pfx.data ++ ['.']) <+: (m2.pfx.data ++ ['.'] ++ k2.data) := ⟨k1.data, hd⟩
      have p2 : (m2.pfx.data ++ ['.']) <+: (m2.pfx.data ++ ['.'] ++ k2.data) := ⟨k2.data, rfl⟩
      rcases List.prefix_or_prefix_of_prefix p1 p2 with h | h
      · exact hn1 h
      · exact hn2 h
  refine ⟨hiff, ?_, ?_⟩
  · intro hd1 hd2 hne
    rw [hiff, hdot, hdot]
    exact ⟨fun h => hne (String.ext (dotted_prefix_eq _ _ hd2 h)),
      fun h => hne (String.ext (dotted_prefix_eq _ _ hd1 h).symm)⟩
  · intro k1 k2 hk h
    exact hk (prefixKey_injective m k1 k2 h)

/-- The theorem for C5 at the prefixes "a" and "b" (and the fixed prefix "a.b"). -/
theorem prefixKey_collision_free_witness :
    ((∀ k1 k2, (RedisExt.mk "test" "a").prefixKey k1 ≠ (RedisExt.mk "test" "b").prefixKey k2) ↔
      (¬ ((RedisExt.mk "test" "a").pfx ++ ".").data <+: ((RedisExt.mk "test" "b").pfx ++ ".").data ∧
       ¬ ((RedisExt.mk "test" "b").pfx ++ ".").data <+: ((RedisExt.mk "test" "a").pfx ++ ".").data)) ∧
    ('.' ∉ (RedisExt.mk "test" "a").pfx.data → '.' ∉ (RedisExt.mk "test" "b").pfx.data →
      (RedisExt.mk "test" "a").pfx ≠ (RedisExt.mk "test" "b").pfx →
      ∀ k1 k2, (RedisExt.mk "test" "a").prefixKey k1 ≠ (RedisExt.mk "test" "b").prefixKey k2) ∧
    (∀ k1 k2, k1 ≠ k2 →
      (RedisExt.mk "test" "a.b").prefixKey k1 ≠ (RedisExt.mk "test" "a.b").prefixKey k2) :=
  prefixKey_collision_free (RedisExt.mk "test" "a.b") (RedisExt.mk "test" "a")
    (RedisExt.mk "test" "b") (by decide) (by decide)

/-! ## The back-off controller -/

theorem run_succ (n : Nat) (m : BackOffCtrl) :
    m.run (n + 1) = ((m.run n).1 ++ [(m.run n).2.BackOff.1], (m.run n).2.BackOff.2) := by
  induction n generalizing m with
  | zero => rfl
  | succ n ih =>
    have h : m.run (n + 1 + 1) =
        (m.BackOff.1 :: (m.BackOff.2.run (n + 1)).1, (m.BackOff.2.run (n + 1)).2) := rfl
    have h2 : m.run (n + 1) = (m.BackOff.1 :: (m.BackOff.2.run n).1, (m.BackOff.2.run n).2) := rfl
    rw [h, ih m.BackOff.2, h2]
    rfl

theorem run_waits (n : Nat) (m : BackOffCtrl) :
    (m.run n).1 = (List.range n).map (fun i => (m.run i).2.BackOff.1) := by
  induction n with
  | zero => rfl
  | succ n ih => rw [run_succ, List.range_succ, List.map_append, ← ih]; rfl

theorem run_state (b c n : Nat) :
    ((NewBackOffCtrl b c).run n).2 =
      { current := if n = 0 then 0 else min (b * 2 ^ (n - 1)) c, base := b, ceiling := c } := by
  induction n with
  | zero => rfl
  | succ n ih =>
    rw [run_succ]
    simp only [ih, BackOffCtrl.BackOff]
    rcases Nat.eq_zero_or_pos n with h0 | hpos
    · subst h0
      simp
    · obtain ⟨k, rfl⟩ : ∃ k, n = k + 1 := ⟨n - 1, by omega⟩
      have hp : b * 2 ^ (k + 1) = 2 * (b * 2 ^ k) := by ring
      have hb : b ≤ b * 2 ^ k := Nat.le_mul_of_pos_right b (Nat.two_pow_pos k)
      simp only [Nat.add_sub_cancel, Nat.add_one_ne_zero, if_false, hp]
      congr 1
      split <;> omega

/-- C6: the delay law of the back-off controller.  For a controller built with base `b`
and ceiling `c`, the `n`-th `BackOff` call since construction (counted from 0, no
`Reset` in between) waits 0 when `n = 0` and `min (b * 2^(n-1)) c` when `n ≥ 1`; the
waits of the first `N` calls are these values in order; with `b = 1` and `c = 10` the
first eight waits are 0,1,2,4,8,10,10,10; and no wait exceeds the ceiling. -/
theorem BackOff_delay_law (b c n : Nat) :
    ((NewBackOffCtrl b c).run n).2.BackOff.1 = (if n = 0 then 0 else min (b * 2 ^ (n - 1)) c) ∧
    ((NewBackOffCtrl b c).run n).1 =
      (List.range n).map (fun i => if i = 0 then 0 else min (b * 2 ^ (i - 1)) c) ∧
    ((NewBackOffCtrl 1 10).run 8).1 = [0, 1, 2, 4, 8, 10, 10, 10] ∧
    (∀ w ∈ ((NewBackOffCtrl b c).run n).1, w ≤ c) ∧
    ((NewBackOffCtrl b c).run n).2.BackOff.1 ≤ c := by
  have hwait : ∀ i, ((NewBackOffCtrl b c).run i).2.BackOff.1 =
      (if i = 0 then 0 else min (b * 2 ^ (i - 1)) c) := fun i => by
    rw [run_state]; rfl
  have hlist : ((NewBackOffCtrl b c).run n).1 =
      (List.range n).map (fun i => if i = 0 then 0 else min (b * 2 ^ (i - 1)) c) := by
    rw [run_waits]
    exact List.map_congr_left (fun i _ => hwait i)
  refine ⟨hwait n, hlist, by decide, ?_, ?_⟩
  · intro w hw
    rw [hlist, List.mem_map] at hw
    obtain ⟨i, -, rfl⟩ := hw
    split
    · exact Nat.zero_le c
    · exact Nat.min_le_right _ _
  · rw [hwait]
    split
    · exact Nat.zero_le c
    · exact Nat.min_le_right _ _

/-! ## `ApolloConfig.Init` -/

/-- C8, the code at the failing input: when `center.NewConfigCenter` fails with error `e`,
`Init` does not return `e`.  With the nil centre that accompanies the error the call
panics; with a non-nil centre `c` it returns whatever `c.Init` returns, which is nil
when that step succeeds.  The error of the second step, in contrast, is returned. -/
theorem Init_drops_creation_error {Center : Type} (e : String) (c : Center)
    (centerInit : Center → Option String) :
    ApolloConfig.Init (none, some e) centerInit = .panicked ∧
    ApolloConfig.Init (some c, some e) (fun _ => none) = .returned (none, some c) ∧
    ApolloConfig.Init (some c, some e) centerInit = .returned (centerInit c, some c) ∧
    ApolloConfig.Init (some c, none) centerInit = .returned (centerInit c, some c) :=
  ⟨rfl, rfl, rfl, rfl⟩

/-! ## The read-through cache -/

theorem prefixPairs_of_strings {α : Type} (m : RedisExt) (pairs : List (Any α)) (k : Nat)
    (h : ∀ i, (k + i) % 2 = 0 → i < pairs.length → ∃ s, pairs[i]? = some (.str s)) :
    ∃ sent, RedisExt.prefixPairs m k pairs = some sent ∧ sent.length = pairs.length ∧
      (∀ i s, (k + i) % 2 = 0 → pairs[i]? = some (.str s) →
        sent[i]? = some (.str (m.prefixKey s))) ∧
      (∀ i, (k + i) % 2 = 1 → sent[i]? = pairs[i]?) := by
  induction pairs generalizing k with
  | nil => exact ⟨[], rfl, rfl, by simp, by simp⟩
  | cons v rest ih =>
    have hrest : ∀ i, (k + 1 + i) % 2 = 0 → i < rest.length →
        ∃ s, rest[i]? = some (.str s) := by
      intro i hi hlt
      have h1 := h (i + 1) (by rw [← hi]; congr 1; omega) (by simp; omega)
      simpa using h1
    obtain ⟨out, hout, hlen, heven, hodd⟩ := ih (k + 1) hrest
    have hshift : ∀ i, k + 1 + i = k + (i + 1) := fun i => by omega
    by_cases hk : k % 2 = 0
    · obtain ⟨s0, hs0⟩ := h 0 (by simpa using hk) (by simp)
      simp only [List.getElem?_cons_zero, Option.some.injEq] at hs0
      subst hs0
      refine ⟨.str (m.prefixKey s0) :: out, ?_, by simp [hlen], ?_, ?_⟩
      · simp [RedisExt.prefixPairs, Nat.and_one_is_mod, hk, hout]
      · intro i s hi hs
        cases i with
        | zero =>
          simp only [List.getElem?_cons_zero, Option.some.injEq, Any.str.injEq] at hs
          simp [hs]
        | succ j =>
          simp only [List.getElem?_cons_succ] at hs ⊢
          exact heven j s (by rw [hshift]; exact hi) hs
      · intro i hi
        cases i with
        | zero => omega
        | succ j =>
          simp only [List.getElem?_cons_succ]
          exact hodd j (by rw [hshift]; exact hi)
    · refine ⟨v :: out, ?_, by simp [hlen], ?_, ?_⟩
      · simp [RedisExt.prefixPairs, Nat.and_one_is_mod, hk, hout]
      · intro i s hi hs
        cases i with
        | zero => omega
        | succ j =>
          simp only [List.getElem?_cons_succ] at hs ⊢
          exact heven j s (by rw [hshift]; exact hi) hs
      · intro i hi
        cases i with
        | zero => simp
        | succ j =>
          simp only [List.getElem?_cons_succ]
          exact hodd j (by rw [hshift]; exact hi)

/-- C11: `MSet` namespaces exactly the keys.  For an argument list whose even-indexed
elements are strings, one `MSet` command is issued whose argument list has the same
length, has `prefixKey(pairs[i])` at every even index `i` and `pairs[i]` unchanged at
every odd index; likewise `MGet` issues one command whose keys are `prefixKey(keys[i])`
at every index `i`, in the same order and with the same length. -/
theorem MSet_MGet_namespace_keys {α : Type} (m : RedisExt) (client : Client α)
    (pairs : List (Any α)) (keys : List String)
    (hstr : ∀ i, i % 2 = 0 → i < pairs.length → ∃ s, pairs[i]? = some (.str s)) :
    (∃ sent, m.MSet (.ok client) pairs = .returned (client.str (.MSet sent), [.MSet sent]) ∧
      sent.length = pairs.length ∧
      (∀ i s, i % 2 = 0 → pairs[i]? = some (.str s) → sent[i]? = some (.str (m.prefixKey s))) ∧
      (∀ i, i % 2 = 1 → sent[i]? = pairs[i]?)) ∧
    (∃ sentKeys, m.MGet (.ok client) keys =
        (client.vals (.MGet sentKeys), [.MGet sentKeys]) ∧
      sentKeys.length = keys.length ∧
      (∀ i : Nat, sentKeys[i]? = keys[i]?.map m.prefixKey)) := by
  constructor
  · obtain ⟨sent, hsent, hlen, heven, hodd⟩ :=
      prefixPairs_of_strings m pairs 0 (fun i hi hlt => hstr i (by simpa using hi) hlt)
    refine ⟨sent, ?_, hlen, ?_, ?_⟩
    · simp only [RedisExt.MSet, hsent]
    · intro i s hi hs
      exact heven i s (by simpa using hi) hs
    · intro i hi
      exact hodd i (by simpa using hi)
  · exact ⟨keys.map m.prefixKey, rfl, by simp, fun i => by simp [List.getElem?_map]⟩

/-- The theorem for C11 at the cache with prefix "p", the pairs `"a", 1, "b", "v"` and the
keys `"a", "b"`. -/
theorem MSet_MGet_namespace_keys_witness :
    (∃ sent, (RedisExt.mk "test" "p").MSet (.ok okClient)
          [.str "a", .other 1, .str "b", .str "v"] =
        .returned (okClient.str (.MSet sent), [.MSet sent]) ∧
      sent.length = [Any.str "a", Any.other (1 : Int), .str "b", .str "v"].length ∧
      (∀ i s, i % 2 = 0 →
        [Any.str "a", Any.other (1 : Int), .str "b", .str "v"][i]? = some (.str s) →
        sent[i]? = some (.str ((RedisExt.mk "test" "p").prefixKey s))) ∧
      (∀ i, i % 2 = 1 →
        sent[i]? = [Any.str "a", Any.other (1 : Int), .str "b", .str "v"][i]?)) ∧
    (∃ sentKeys, (RedisExt.mk "test" "p").MGet (.ok okClient) ["a", "b"] =
        (okClient.vals (.MGet sentKeys), [.MGet sentKeys]) ∧
      sentKeys.length = ["a", "b"].length ∧
      (∀ i : Nat, sentKeys[i]? = ["a", "b"][i]?.map (RedisExt.mk "test" "p").prefixKey)) :=
  MSet_MGet_namespace_keys (RedisExt.mk "test" "p") okClient
    [.str "a", .other 1, .str "b", .str "v"] ["a", "b"]
    (fun i hi hlt => by
      have h4 : i < 4 := hlt
      interval_cases i
      · exact ⟨"a", rfl⟩
      · omega
      · exact ⟨"b", rfl⟩
      · omega)

/-! ## The backend-address list of `GetConfig` -/

theorem splitOn_append_sep (sep : Char) (a b : List Char) :
    (a ++ sep :: b).splitOn sep = a.splitOn sep ++ b.splitOn sep := by
  simp only [List.splitOn]
  induction a with
  | nil => simp
  | cons x a ih =>
    rw [List.cons_append, List.splitOnP_cons, List.splitOnP_cons, ih]
    split
    · rfl
    · cases hsp : List.splitOnP (fun c => c == sep) a with
      | nil => exact absurd hsp (List.splitOnP_ne_nil _ _)
      | cons y ys => rfl

theorem splitOn_of_not_mem (sep : Char) (a : List Char) (h : sep ∉ a) :
    a.splitOn sep = [a] := by
  apply List.splitOnP_eq_single
  intro x hx hsep
  rw [beq_iff_eq] at hsep
  exact h (hsep ▸ hx)

theorem Split_Join_four (topic group kind item : String)
    (hg : '.' ∉ group.data) (hk : '.' ∉ kind.data) (hi : '.' ∉ item.data) :
    strings.Split (strings.Join [topic, group, kind, item] '.') '.' =
      strings.Split topic '.' ++ [group, kind, item] := by
  unfold strings.Split
  rw [Join_four_data, splitOn_append_sep, splitOn_append_sep, splitOn_append_sep,
    splitOn_of_not_mem _ _ hg, splitOn_of_not_mem _ _ hk, splitOn_of_not_mem _ _ hi]
  simp

theorem ParseKey_Join_four (topic group kind item : String)
    (hg : '.' ∉ group.data) (hk : '.' ∉ kind.data) (hi : '.' ∉ item.data) :
    ApolloConfig.ParseKey (strings.Join [topic, group, kind, item] '.') =
      .ok { Topic := topic, Group := group } := by
  unfold ApolloConfig.ParseKey apolloConfigSep
  rw [Split_Join_four topic group kind item hg hk hi]
  have hlen : (strings.Split topic '.' ++ [group, kind, item]).length =
      (strings.Split topic '.').length + 3 := by simp
  simp only [hlen, Nat.add_sub_cancel]
  have hnot : ¬ (strings.Split topic '.').length + 3 < 4 := by
    have hpos : 0 < (strings.Split topic '.').length := by
      unfold strings.Split
      rw [List.length_map]
      exact List.length_pos.mpr (List.splitOnP_ne_nil _ _)
    omega
  rw [if_neg hnot, List.take_left, Join_Split]
  have hget : (strings.Split topic '.' ++ [group, kind, item]).getD
      (strings.Split topic '.').length "" = group := by
    rw [List.getD_eq_getElem?_getD, List.getElem?_append_right (Nat.le_refl _)]
    simp
  rw [hget]

/-- C13: `ParseKey` inverts `buildKey`.  For every topic (with or without "."), when the
routing group of the request and the item name contain no ".", `ParseKey` applied to
the key that `buildKey` produces succeeds and returns the topic and that routing
group. -/
theorem ParseKey_buildKey (K : Consts) (ctx : Ctx) (topic item : String)
    (hg : '.' ∉ (GetControlRouteGroupWithDefault ctx K.defaultRouteGroup).data)
    (hi : '.' ∉ item.data) :
    ApolloConfig.ParseKey (ApolloConfig.buildKey K ctx topic item) =
      .ok { Topic := topic, Group := GetControlRouteGroupWithDefault ctx K.defaultRouteGroup } := by
  rw [buildKey_eq]
  exact ParseKey_Join_four topic _ "kafka" item hg (by decide) hi

/-- The theorem for C13 at the topic "palfish.order.paid", the routing group "t1" carried
by the request context, and the item "brokers". -/
theorem ParseKey_buildKey_witness :
    ApolloConfig.ParseKey (ApolloConfig.buildKey exampleConsts ⟨some ("t1", true)⟩
        "palfish.order.paid" "brokers") =
      .ok { Topic := "palfish.order.paid",
            Group := GetControlRouteGroupWithDefault ⟨some ("t1", true)⟩
              exampleConsts.defaultRouteGroup } :=
  ParseKey_buildKey exampleConsts ⟨some ("t1", true)⟩ "palfish.order.paid" "brokers"
    (by decide) (by decide)

/-! ## The operations of `RedisExt` -/

/-- C14, the code at the failing input: for every key, field and value, the command that
`RedisExt.HSetNX` issues is `HSet` on `prefixKey(key)`, not `HSetNX`; the whole operation
does what `RedisExt.HSet` does, whatever the instance resolution returned. -/
theorem HSetNX_issues_HSet {α : Type} (m : RedisExt) (client : Client α)
    (key field : String) (val : Any α) :
    (m.HSetNX (.ok client) key field val).2 = [Cmd.HSet (m.prefixKey key) field val] ∧
    (m.HSetNX (.ok client) key field val).2 ≠ [Cmd.HSetNX (m.prefixKey key) field val] ∧
    (∀ inst : Except Err (Client α), m.HSetNX inst key field val = m.HSet inst key field val) := by
  refine ⟨rfl, ?_, ?_⟩
  · intro h
    simp [RedisExt.HSetNX] at h
  · intro inst
    cases inst <;> rfl

theorem prefixPairs_none_of_other {α : Type} (m : RedisExt) (pairs : List (Any α)) (k i : Nat)
    (a : α) (hi : (k + i) % 2 = 0) (ha : pairs[i]? = some (.other a)) :
    RedisExt.prefixPairs m k pairs = none := by
  induction pairs generalizing k i with
  | nil => simp at ha
  | cons v rest ih =>
    cases i with
    | zero =>
      simp only [List.getElem?_cons_zero, Option.some.injEq] at ha
      subst ha
      have hk : k % 2 = 0 := by simpa using hi
      simp [RedisExt.prefixPairs, Nat.and_one_is_mod, hk]
    | succ j =>
      simp only [List.getElem?_cons_succ] at ha
      have hrest := ih (k + 1) j (by rw [← hi]; congr 1; omega) ha
      unfold RedisExt.prefixPairs
      split
      · cases v <;> simp [hrest]
      · simp [hrest]

theorem prefixPairs_none_iff {α : Type} (m : RedisExt) (pairs : List (Any α)) :
    RedisExt.prefixPairs m 0 pairs = none ↔
      ∃ i a, i % 2 = 0 ∧ pairs[i]? = some (.other a) := by
  constructor
  · intro hnone
    by_contra hno
    have hall : ∀ i, (0 + i) % 2 = 0 → i < pairs.length → ∃ s, pairs[i]? = some (.str s) := by
      intro i hi hlt
      rw [Nat.zero_add] at hi
      cases hv : pairs[i] with
      | str s => exact ⟨s, by rw [List.getElem?_eq_getElem hlt, hv]⟩
      | other a => exact absurd ⟨i, a, hi, by rw [List.getElem?_eq_getElem hlt, hv]⟩ hno
    obtain ⟨sent, hsent, -⟩ := prefixPairs_of_strings m pairs 0 hall
    rw [hnone] at hsent
    cases hsent
  · rintro ⟨i, a, hi, ha⟩
    exact prefixPairs_none_of_other m pairs 0 i a (by simpa using hi) ha

/-- The counterexample to C15: with the backend instance resolved, `MSet` called with the
arguments `1, "v"` panics; it issues no backend command and returns nothing. -/
theorem MSet_panics_on_non_string_key :
    (RedisExt.mk "test" "p").MSet (.ok okClient) [.other 1, .str "v"] = .panicked := rfl

theorem MSet_delegates {α : Type} (m : RedisExt) (pairs : List (Any α)) :
    (∀ err, m.MSet (.error err : Except Err (Client α)) pairs = .returned (("", some err), [])) ∧
    (∀ client : Client α, m.MSet (.ok client) pairs = .panicked ↔
      ∃ i a, i % 2 = 0 ∧ pairs[i]? = some (.other a)) ∧
    (∀ client : Client α, m.MSet (.ok client) pairs = .panicked ∨
      ∃ cmd, m.MSet (.ok client) pairs = .returned (client.str cmd, [cmd])) := by
  refine ⟨fun _ => rfl, fun client => ?_, fun client => ?_⟩
  · rw [← prefixPairs_none_iff m pairs]
    unfold RedisExt.MSet
    cases RedisExt.prefixPairs m 0 pairs <;> simp
  · unfold RedisExt.MSet
    cases RedisExt.prefixPairs m 0 pairs with
    | none => exact Or.inl rfl
    | some sent => exact Or.inr ⟨_, rfl⟩

/-- C15, amended: every operation of `RedisExt` other than `MSet` delegates to the
backend: when resolving the backend instance fails it returns exactly that error
with the zero value of its result and issues no command, and when resolution succeeds
it issues exactly one command and returns the result and error of that command
unchanged (`ZRangeWithScores` and `ZRevRangeWithScores` return the members of the
result converted field by field to the type `Z`).  `MSet` does the same on a failed
resolution; on a successful one it issues exactly one command and returns its result
and error, unless an even-indexed argument is not a string, in which case it
panics. -/
theorem RedisExt_operations_delegate {α : Type} (m : RedisExt) :
    (∀ (key : String),
      Delegates "" (fun inst : Except Err (Client α) => m.Get inst key) Client.str) ∧
    (∀ (key : String) (val : Any α) (exp : Int),
      Delegates "" (fun inst : Except Err (Client α) => m.Set inst key val exp) Client.str) ∧
    (∀ (key : String) (offset : Int),
      Delegates (0 : Int) (fun inst : Except Err (Client α) => m.GetBit inst key offset) Client.int) ∧
    (∀ (key : String) (offset : Int) (value : Int),
      Delegates (0 : Int) (fun inst : Except Err (Client α) => m.SetBit inst key offset value) Client.int) ∧
    (∀ (key : String),
      Delegates (0 : Int) (fun inst : Except Err (Client α) => m.Incr inst key) Client.int) ∧
    (∀ (key : String) (val : Int),
      Delegates (0 : Int) (fun inst : Except Err (Client α) => m.IncrBy inst key val) Client.int) ∧
    (∀ (key : String),
      Delegates (0 : Int) (fun inst : Except Err (Client α) => m.Decr inst key) Client.int) ∧
    (∀ (key : String) (val : Int),
      Delegates (0 : Int) (fun inst : Except Err (Client α) => m.DecrBy inst key val) Client.int) ∧
    (∀ (key : String) (val : Any α) (exp : Int),
      Delegates false (fun inst : Except Err (Client α) => m.SetNX inst key val exp) Client.bool) ∧
    (∀ (key : String),
      Delegates (0 : Int) (fun inst : Except Err (Client α) => m.Exists inst key) Client.int) ∧
    (∀ (key : String),
      Delegates (0 : Int) (fun inst : Except Err (Client α) => m.Del inst key) Client.int) ∧
    (∀ (key : String) (expiration : Int),
      Delegates false (fun inst : Except Err (Client α) => m.Expire inst key expiration) Client.bool) ∧
    (∀ (key : String) (field : String) (value : Any α),
      Delegates false (fun inst : Except Err (Client α) => m.HSet inst key field value) Client.bool) ∧
    (∀ (key : String) (fields : List String),
      Delegates (0 : Int) (fun inst : Except Err (Client α) => m.HDel inst key fields) Client.int) ∧
    (∀ (key : String) (field : String),
      Delegates false (fun inst : Except Err (Client α) => m.HExists inst key field) Client.bool) ∧
    (∀ (key : String) (field : String),
      Delegates "" (fun inst : Except Err (Client α) => m.HGet inst key field) Client.str) ∧
    (∀ (key : String),
      Delegates ([] : List (String × String)) (fun inst : Except Err (Client α) => m.HGetAll inst key) Client.strMap) ∧
    (∀ (key : String) (field : String) (incr : Int),
      Delegates (0 : Int) (fun inst : Except Err (Client α) => m.HIncrBy inst key field incr) Client.int) ∧
    (∀ (key : String) (field : String) (incr : Float64),
      Delegates (⟨0⟩ : Float64) (fun inst : Except Err (Client α) => m.HIncrByFloat inst key field incr) Client.float) ∧
    (∀ (key : String),
      Delegates ([] : List String) (fun inst : Except Err (Client α) => m.HKeys inst key) Client.strs) ∧
    (∀ (key : String),
      Delegates (0 : Int) (fun inst : Except Err (Client α) => m.HLen inst key) Client.int) ∧
    (∀ (key : String) (fields : List String),
      Delegates ([] : List (Any α)) (fun inst : Except Err (Client α) => m.HMGet inst key fields) Client.vals) ∧
    (∀ (key : String) (fields : List (String × Any α)),
      Delegates "" (fun inst : Except Err (Client α) => m.HMSet inst key fields) Client.str) ∧
    (∀ (key : String) (field : String) (val : Any α),
      Delegates false (fun inst : Except Err (Client α) => m.HSetNX inst key field val) Client.bool) ∧
    (∀ (key : String),
      Delegates ([] : List String) (fun inst : Except Err (Client α) => m.HVals inst key) Client.strs) ∧
    (∀ (key : String) (members : List (Z α)),
      Delegates (0 : Int) (fun inst : Except Err (Client α) => m.ZAdd inst key members) Client.int) ∧
    (∀ (key : String) (members : List (Z α)),
      Delegates (0 : Int) (fun inst : Except Err (Client α) => m.ZAddNX inst key members) Client.int) ∧
    (∀ (key : String) (members : List (Z α)),
      Delegates (0 : Int) (fun inst : Except Err (Client α) => m.ZAddNXCh inst key members) Client.int) ∧
    (∀ (key : String) (members : List (Z α)),
      Delegates (0 : Int) (fun inst : Except Err (Client α) => m.ZAddXX inst key members) Client.int) ∧
    (∀ (key : String) (members : List (Z α)),
      Delegates (0 : Int) (fun inst : Except Err (Client α) => m.ZAddXXCh inst key members) Client.int) ∧
    (∀ (key : String) (members : List (Z α)),
      Delegates (0 : Int) (fun inst : Except Err (Client α) => m.ZAddCh inst key members) Client.int) ∧
    (∀ (key : String),
      Delegates (0 : Int) (fun inst : Except Err (Client α) => m.ZCard inst key) Client.int) ∧
    (∀ (key : String) (min max : String),
      Delegates (0 : Int) (fun inst : Except Err (Client α) => m.ZCount inst key min max) Client.int) ∧
    (∀ (key : String) (start stop : Int),
      Delegates ([] : List String) (fun inst : Except Err (Client α) => m.ZRange inst key start stop) Client.strs) ∧
    (∀ (key : String) (rb : ZRangeBy),
      Delegates ([] : List String) (fun inst : Except Err (Client α) => m.ZRangeByLex inst key rb) Client.strs) ∧
    (∀ (key : String) (rb : ZRangeBy),
      Delegates ([] : List String) (fun inst : Except Err (Client α) => m.ZRangeByScore inst key rb) Client.strs) ∧
    (∀ (key : String) (start stop : Int),
      Delegates ([] : List (Z α)) (fun inst : Except Err (Client α) => m.ZRangeWithScores inst key start stop) (fun client cmd => (fromRedisZSlice (client.zs cmd).1, (client.zs cmd).2))) ∧
    (∀ (key : String) (start stop : Int),
      Delegates ([] : List String) (fun inst : Except Err (Client α) => m.ZRevRange inst key start stop) Client.strs) ∧
    (∀ (key : String) (start stop : Int),
      Delegates ([] : List (Z α)) (fun inst : Except Err (Client α) => m.ZRevRangeWithScores inst key start stop) (fun client cmd => (fromRedisZSlice (client.zs cmd).1, (client.zs cmd).2))) ∧
    (∀ (key : String) (member : String),
      Delegates (0 : Int) (fun inst : Except Err (Client α) => m.ZRank inst key member) Client.int) ∧
    (∀ (key : String) (member : String),
      Delegates (0 : Int) (fun inst : Except Err (Client α) => m.ZRevRank inst key member) Client.int) ∧
    (∀ (key : String) (members : List (Any α)),
      Delegates (0 : Int) (fun inst : Except Err (Client α) => m.ZRem inst key members) Client.int) ∧
    (∀ (key : String) (member : Z α),
      Delegates (⟨0⟩ : Float64) (fun inst : Except Err (Client α) => m.ZIncr inst key member) Client.float) ∧
    (∀ (key : String) (member : Z α),
      Delegates (⟨0⟩ : Float64) (fun inst : Except Err (Client α) => m.ZIncrNX inst key member) Client.float) ∧
    (∀ (key : String) (member : Z α),
      Delegates (⟨0⟩ : Float64) (fun inst : Except Err (Client α) => m.ZIncrXX inst key member) Client.float) ∧
    (∀ (key : String) (increment : Float64) (member : String),
      Delegates (⟨0⟩ : Float64) (fun inst : Except Err (Client α) => m.ZIncrBy inst key increment member) Client.float) ∧
    (∀ (key : String) (member : String),
      Delegates (⟨0⟩ : Float64) (fun inst : Except Err (Client α) => m.ZScore inst key member) Client.float) ∧
    (∀ (keys : List String),
      Delegates ([] : List (Any α)) (fun inst : Except Err (Client α) => m.MGet inst keys) Client.vals) ∧
    (∀ (pairs : List (Any α)),
      (∀ err, m.MSet (.error err) pairs = .returned (("", some err), [])) ∧
      (∀ client, m.MSet (.ok client) pairs = .panicked ↔
        ∃ i a, i % 2 = 0 ∧ pairs[i]? = some (.other a)) ∧
      (∀ client, m.MSet (.ok client) pairs = .panicked ∨
        ∃ cmd, m.MSet (.ok client) pairs = .returned (client.str cmd, [cmd]))) :=
  ⟨fun _ => ⟨fun _ => rfl, fun _ => ⟨_, rfl⟩⟩,
    fun _ _ _ => ⟨fun _ => rfl, fun _ => ⟨_, rfl⟩⟩,
    fun _ _ => ⟨fun _ => rfl, fun _ => ⟨_, rfl⟩⟩,
    fun _ _ _ => ⟨fun _ => rfl, fun _ => ⟨_, rfl⟩⟩,
    fun _ => ⟨fun _ => rfl, fun _ => ⟨_, rfl⟩⟩,
    fun _ _ => ⟨fun _ => rfl, fun _ => ⟨_, rfl⟩⟩,
    fun _ => ⟨fun _ => rfl, fun _ => ⟨_, rfl⟩⟩,
    fun _ _ => ⟨fun _ => rfl, fun _ => ⟨_, rfl⟩⟩,
    fun _ _ _ => ⟨fun _ => rfl, fun _ => ⟨_, rfl⟩⟩,
    fun _ => ⟨fun _ => rfl, fun _ => ⟨_, rfl⟩⟩,
    fun _ => ⟨fun _ => rfl, fun _ => ⟨_, rfl⟩⟩,
    fun _ _ => ⟨fun _ => rfl, fun _ => ⟨_, rfl⟩⟩,
    fun _ _ _ => ⟨fun _ => rfl, fun _ => ⟨_, rfl⟩⟩,
    fun _ _ => ⟨fun _ => rfl, fun _ => ⟨_, rfl⟩⟩,
    fun _ _ => ⟨fun _ => rfl, fun _ => ⟨_, rfl⟩⟩,
    fun _ _ => ⟨fun _ => rfl, fun _ => ⟨_, rfl⟩⟩,
    fun _ => ⟨fun _ => rfl, fun _ => ⟨_, rfl⟩⟩,
    fun _ _ _ => ⟨fun _ => rfl, fun _ => ⟨_, rfl⟩⟩,
    fun _ _ _ => ⟨fun _ => rfl, fun _ => ⟨_, rfl⟩⟩,
    fun _ => ⟨fun _ => rfl, fun _ => ⟨_, rfl⟩⟩,
    fun _ => ⟨fun _ => rfl, fun _ => ⟨_, rfl⟩⟩,
    fun _ _ => ⟨fun _ => rfl, fun _ => ⟨_, rfl⟩⟩,
    fun _ _ => ⟨fun _ => rfl, fun _ => ⟨_, rfl⟩⟩,
    fun _ _ _ => ⟨fun _ => rfl, fun _ => ⟨_, rfl⟩⟩,
    fun _ => ⟨fun _ => rfl, fun _ => ⟨_, rfl⟩⟩,
    fun _ _ => ⟨fun _ => rfl, fun _ => ⟨_, rfl⟩⟩,
    fun _ _ => ⟨fun _ => rfl, fun _ => ⟨_, rfl⟩⟩,
    fun _ _ => ⟨fun _ => rfl, fun _ => ⟨_, rfl⟩⟩,
    fun _ _ => ⟨fun _ => rfl, fun _ => ⟨_, rfl⟩⟩,
    fun _ _ => ⟨fun _ => rfl, fun _ => ⟨_, rfl⟩⟩,
    fun _ _ => ⟨fun _ => rfl, fun _ => ⟨_, rfl⟩⟩,
    fun _ => ⟨fun _ => rfl, fun _ => ⟨_, rfl⟩⟩,
    fun _ _ _ => ⟨fun _ => rfl, fun _ => ⟨_, rfl⟩⟩,
    fun _ _ _ => ⟨fun _ => rfl, fun _ => ⟨_, rfl⟩⟩,
    fun _ _ => ⟨fun _ => rfl, fun _ => ⟨_, rfl⟩⟩,
    fun _ _ => ⟨fun _ => rfl, fun _ => ⟨_, rfl⟩⟩,
    fun _ _ _ => ⟨fun _ => rfl, fun _ => ⟨_, rfl⟩⟩,
    fun _ _ _ => ⟨fun _ => rfl, fun _ => ⟨_, rfl⟩⟩,
    fun _ _ _ => ⟨fun _ => rfl, fun _ => ⟨_, rfl⟩⟩,
    fun _ _ => ⟨fun _ => rfl, fun _ => ⟨_, rfl⟩⟩,
    fun _ _ => ⟨fun _ => rfl, fun _ => ⟨_, rfl⟩⟩,
    fun _ _ => ⟨fun _ => rfl, fun _ => ⟨_, rfl⟩⟩,
    fun _ _ => ⟨fun _ => rfl, fun _ => ⟨_, rfl⟩⟩,
    fun _ _ => ⟨fun _ => rfl, fun _ => ⟨_, rfl⟩⟩,
    fun _ _ => ⟨fun _ => rfl, fun _ => ⟨_, rfl⟩⟩,
    fun _ _ _ => ⟨fun _ => rfl, fun _ => ⟨_, rfl⟩⟩,
    fun _ _ => ⟨fun _ => rfl, fun _ => ⟨_, rfl⟩⟩,
    fun _ => ⟨fun _ => rfl, fun _ => ⟨_, rfl⟩⟩,
    fun pairs => MSet_delegates m pairs⟩

/-! ## The changes forwarded by `HandleChangeEvent` -/

theorem Contains_iff_infix (s substr : String) :
    strings.Contains s substr = true ↔ substr.data <:+: s.data := by
  unfold strings.Contains
  rw [List.any_eq_true, List.infix_iff_prefix_suffix]
  constructor
  · rintro ⟨t, ht, hp⟩
    exact ⟨t, List.isPrefixOf_iff_prefix.mp hp, (List.mem_tails _ _).mp ht⟩
  · rintro ⟨t, hp, ht⟩
    exact ⟨t, (List.mem_tails _ _).mpr ht, List.isPrefixOf_iff_prefix.mpr hp⟩

/-- C16: for an event of the MQ namespace, `HandleChangeEvent` forwards one event whose
`Changes` are exactly the entries of the original `Changes` whose key contains the
substring "kafka", in their order and each with its change unchanged, and no other
entry; the event is forwarded whatever remains, also when no entry does. -/
theorem HandleChangeEvent_forwards_kafka_changes {Change : Type} (K : Consts)
    (ob : apolloObserver Change) (event : ChangeEvent Change)
    (hns : event.Namespace = K.DefaultApolloMQNamespace) :
    ∃ fwd, (ob.HandleChangeEvent K event).ch = ob.ch ++ [fwd] ∧
      fwd.Namespace = event.Namespace ∧
      fwd.Changes = event.Changes.filter (fun kc => strings.Contains kc.1 "kafka") ∧
      (∀ k c, (k, c) ∈ fwd.Changes ↔ ((k, c) ∈ event.Changes ∧ "kafka".data <:+: k.data)) ∧
      fwd.Changes.Sublist event.Changes ∧
      (fwd.Changes = [] ↔ ∀ kc ∈ event.Changes, ¬ "kafka".data <:+: kc.1.data) := by
  refine ⟨{ event with Changes :=
      event.Changes.filter (fun kc => strings.Contains kc.1 MQTypeKafka.String) }, ?_, rfl, rfl,
    ?_, List.filter_sublist _, ?_⟩
  · unfold apolloObserver.HandleChangeEvent
    simp [hns]
  · intro k c
    have hk : MQTypeKafka.String = "kafka" := rfl
    simp only [List.mem_filter, hk, Contains_iff_infix]
  · have hk : MQTypeKafka.String = "kafka" := rfl
    simp only [List.filter_eq_nil_iff, hk, Contains_iff_infix]

/-- The theorem for C16 at an event of the MQ namespace with the keys
"topic.default.kafka.brokers" and "topic.default.redis.addr". -/
theorem HandleChangeEvent_forwards_kafka_changes_witness :
    ∃ fwd, ((apolloObserver.mk []).HandleChangeEvent exampleConsts exampleEvent).ch =
        (apolloObserver.mk []).ch ++ [fwd] ∧
      fwd.Namespace = exampleEvent.Namespace ∧
      fwd.Changes = exampleEvent.Changes.filter (fun kc => strings.Contains kc.1 "kafka") ∧
      (∀ k c, (k, c) ∈ fwd.Changes ↔
        ((k, c) ∈ exampleEvent.Changes ∧ "kafka".data <:+: k.data)) ∧
      fwd.Changes.Sublist exampleEvent.Changes ∧
      (fwd.Changes = [] ↔ ∀ kc ∈ exampleEvent.Changes, ¬ "kafka".data <:+: kc.1.data) :=
  HandleChangeEvent_forwards_kafka_changes exampleConsts (apolloObserver.mk []) exampleEvent
    (by decide)

end Sutil
